import Mathlib

/-!
Verification of the Humata-AI document-to-text extraction pipeline.

The TypeScript source (server/groq.ts) is shallowly embedded here:

* Text is modelled as `String` / `List Char` (one entry per code point; the
  source counts UTF-16 units, which agree on the characters used here).
* Raw decoded images (`sharp(..).raw().toBuffer({resolveWithObject: true})`)
  are modelled by `RawImage`: width, height, channel count and the flat byte
  buffer as a `List Nat`, indexed exactly as the source indexes `data`.
* The external `sharp` codec operations, the Tesseract recognizer and the
  Groq chat completion are collaborators: they appear as fields of `Env`,
  each returning `Option _` where `none` models a thrown/rejected promise.
* Numeric work the source performs in JavaScript floats on integral data
  (integral-image sums, local means, row variances) is modelled exactly in
  `Nat`/`Int`/`Rat`; on the byte-valued data involved the float computations
  are exact, and strict comparisons against means/variances with denominators
  bounded by the window size cannot straddle a double rounding error.
* JavaScript built-ins used by the source (`String.prototype.trim`,
  `String.prototype.lastIndexOf`, `Buffer.alloc`, `Array.prototype.fill`)
  are given direct executable models next to their first use.

Pixel-level algorithms (adaptive threshold, erosion, dilation, skew scoring,
chunk splitting) are translated loop by loop from the source; the mutable
output buffers become `List.set` folds over the same iteration ranges.
-/

/-- Encoded image bytes (a Node `Buffer`): the pipeline treats them opaquely
between codec calls, so any byte list works. -/
abbrev ImgBuffer : Type := List Nat

/-- Result of `sharp(buf).raw().toBuffer({resolveWithObject: true})`:
`info.width`, `info.height`, `info.channels` and the flat `data` bytes,
row-major and channel-interleaved (`idx = (y * width + x) * channels`). -/
structure RawImage where
  width : Nat
  height : Nat
  channels : Nat
  data : List Nat
deriving DecidableEq, Repr

/-- `info.width * info.height * info.channels` bytes, as `sharp` guarantees
for its raw output. -/
def RawImage.Wf (img : RawImage) : Prop :=
  img.data.length = img.width * img.height * img.channels

instance (img : RawImage) : Decidable img.Wf := by
  unfold RawImage.Wf
  infer_instance

/-- First-channel byte of pixel (y, x): the source reads
`data[(y * width + x) * channels]`. Out-of-range reads never happen on
well-formed images; the default 0 is arbitrary. -/
def RawImage.px (img : RawImage) (y x : Nat) : Nat :=
  img.data.getD ((y * img.width + x) * img.channels) 0

/-- `sharp` metadata (`metadata.width`, `metadata.height`); either field can
be absent, which the source defaults through `|| 800` and `|| 600`. -/
structure MetaInfo where
  width : Option Nat
  height : Option Nat
deriving DecidableEq, Repr

/-- Output section shape of the heading detector (`DocumentSection`); the
source field `type` holds "main" or "sub" and is called `stype` here because
`type` is reserved. -/
structure DocumentSection where
  stype : String
  title : String
  content : String
deriving DecidableEq, Repr

/-- `StructuredDocument`: ordered sections plus the flattened plain text. -/
structure StructuredDocument where
  sections : List DocumentSection
  plainText : String
deriving DecidableEq, Repr

/-- The collaborators of the module: the `sharp` codec calls (each chained
`sharp(..)...png().toBuffer()` is one fallible operation), Tesseract, the
Groq availability flag and chat call, and `JSON.parse` specialised to the
section-array shape the detector reads. `none` models a thrown error;
`some none` from `complete` models a null/absent message content. -/
structure Env where
  apiKey : Bool
  metadata : ImgBuffer → Option MetaInfo
  grayscale : ImgBuffer → Option ImgBuffer
  normalize : ImgBuffer → Option ImgBuffer
  linear : Rat → Int → ImgBuffer → Option ImgBuffer
  median : Nat → ImgBuffer → Option ImgBuffer
  sharpen : Option Rat → ImgBuffer → Option ImgBuffer
  resize : Nat → Nat → ImgBuffer → Option ImgBuffer
  rotate : Int → ImgBuffer → Option ImgBuffer
  rawDecode : ImgBuffer → Option RawImage
  encodeRaw : RawImage → Option ImgBuffer
  fromBase64 : String → ImgBuffer
  tesseract : ImgBuffer → Option String
  complete : String → String → Nat → Rat → Option (Option String)
  parseJsonArray : String → Option (List DocumentSection)

/-! ### JavaScript string built-ins used by the pipeline -/

/-- The whitespace class of `String.prototype.trim` restricted to the
characters that occur in this development. -/
def isJsWs (c : Char) : Bool :=
  c == ' ' || c == '\t' || c == '\n' || c == '\r'

/-- `String.prototype.trim` on code points. -/
def trimChars (l : List Char) : List Char :=
  ((l.dropWhile isJsWs).reverse.dropWhile isJsWs).reverse

/-- `String.prototype.trim`. -/
def trimStr (s : String) : String :=
  String.mk (trimChars s.data)

/-- Character of `l` at index `i` (the blank default is never used at the
indices the theorems speak about). -/
def charAt (l : List Char) (i : Nat) : Char :=
  l.getD i ' '

/-- Backward scan of `String.prototype.lastIndexOf(c, i)` starting at index
`i` inclusive: the greatest matching index `≤ i`, else -1. -/
def lastIndexOfAux (l : List Char) (c : Char) : Nat → Int
  | 0 => if charAt l 0 == c then 0 else -1
  | i + 1 => if charAt l (i + 1) == c then ((i : Int) + 1) else lastIndexOfAux l c i

/-- `s.lastIndexOf(c, pos)`: the position argument is clamped into the
string, and -1 reports no occurrence. -/
def jsLastIndexOf (l : List Char) (c : Char) (pos : Nat) : Int :=
  if l.length = 0 then -1 else lastIndexOfAux l c (min pos (l.length - 1))

theorem lastIndexOfAux_le (l : List Char) (c : Char) (i : Nat) :
    lastIndexOfAux l c i ≤ (i : Int) := by
  induction i with
  | zero =>
    unfold lastIndexOfAux
    split <;> omega
  | succ i ih =>
    unfold lastIndexOfAux
    split
    · omega
    · omega

theorem lastIndexOfAux_found (l : List Char) (c : Char) (i : Nat)
    (h : 0 ≤ lastIndexOfAux l c i) :
    charAt l (lastIndexOfAux l c i).toNat = c := by
  induction i with
  | zero =>
    unfold lastIndexOfAux at h ⊢
    by_cases hc : charAt l 0 == c
    · rw [if_pos hc]
      simpa using (by simpa using hc : charAt l 0 = c)
    · rw [if_neg hc] at h
      omega
  | succ i ih =>
    unfold lastIndexOfAux at h ⊢
    by_cases hc : charAt l (i + 1) == c
    · have hcv : charAt l (i + 1) = c := by simpa using hc
      rw [if_pos hc]
      have : ((i : Int) + 1).toNat = i + 1 := by omega
      rw [this]
      exact hcv
    · rw [if_neg hc] at h ⊢
      exact ih h

theorem lastIndexOfAux_ge (l : List Char) (c : Char) (i j : Nat)
    (hj : j ≤ i) (hc : charAt l j = c) :
    (j : Int) ≤ lastIndexOfAux l c i := by
  induction i with
  | zero =>
    have hj0 : j = 0 := Nat.le_zero.mp hj
    subst hj0
    unfold lastIndexOfAux
    simp [hc]
  | succ i ih =>
    unfold lastIndexOfAux
    by_cases hc2 : charAt l (i + 1) == c
    · simp only [hc2, if_true]
      omega
    · have hne : j ≠ i + 1 := by
        intro he
        subst he
        exact hc2 (by simp [hc])
      have hji : j ≤ i := by omega
      rw [if_neg hc2]
      exact ih hji

theorem jsLastIndexOf_le (l : List Char) (c : Char) (pos : Nat) :
    jsLastIndexOf l c pos ≤ ((min pos (l.length - 1) : Nat) : Int) := by
  unfold jsLastIndexOf
  split
  · omega
  · exact lastIndexOfAux_le l c _

theorem jsLastIndexOf_found (l : List Char) (c : Char) (pos : Nat)
    (h : 0 ≤ jsLastIndexOf l c pos) :
    charAt l (jsLastIndexOf l c pos).toNat = c := by
  unfold jsLastIndexOf at h ⊢
  by_cases hl : l.length = 0
  · rw [if_pos hl] at h
    omega
  · rw [if_neg hl] at h ⊢
    exact lastIndexOfAux_found l c _ h

theorem jsLastIndexOf_ge (l : List Char) (c : Char) (pos j : Nat)
    (hj : j ≤ pos) (hjl : j < l.length) (hc : charAt l j = c) :
    (j : Int) ≤ jsLastIndexOf l c pos := by
  unfold jsLastIndexOf
  split
  · omega
  · exact lastIndexOfAux_ge l c _ j (by omega) hc

/-! ### DocumentMerger chunking (smartMergeMultiPagePDF, lines 97-121)

The source walks `currentPos` through the text; each step takes at most
`MAX_CHARS_PER_CHUNK = 6000` characters, but if the tentative end is not the
end of the text it backs off to just after the latest '.' or newline found at
or before the tentative end, provided that break lies strictly past
`currentPos + MAX_CHARS_PER_CHUNK / 2`. -/

/-- `Math.min(currentPos + MAX_CHARS_PER_CHUNK, rawText.length)`. -/
def tentativeEnd (s : List Char) (cp : Nat) : Nat :=
  min (cp + 6000) s.length

/-- `Math.max(lastPeriod, lastNewline)` for the chunk starting at `cp`. -/
def breakPointAt (s : List Char) (cp : Nat) : Int :=
  max (jsLastIndexOf s '.' (tentativeEnd s cp))
    (jsLastIndexOf s '\n' (tentativeEnd s cp))

/-- The `endPos` the source's loop body computes for a chunk starting at
`cp`. -/
def chunkEnd (s : List Char) (cp : Nat) : Nat :=
  if tentativeEnd s cp < s.length then
    if breakPointAt s cp > (cp : Int) + 3000 then (breakPointAt s cp).toNat + 1
    else tentativeEnd s cp
  else tentativeEnd s cp

theorem chunkEnd_gt (s : List Char) (cp : Nat) (h : cp < s.length) :
    cp < chunkEnd s cp := by
  have h6 : cp < tentativeEnd s cp := by
    unfold tentativeEnd
    omega
  unfold chunkEnd
  split
  · split
    · next hbp => omega
    · exact h6
  · exact h6

theorem chunkEnd_le (s : List Char) (cp : Nat) :
    chunkEnd s cp ≤ s.length := by
  have hm : tentativeEnd s cp ≤ s.length := min_le_right _ _
  unfold chunkEnd
  split
  · next hlt =>
    split
    · next hbp =>
      have h1 := jsLastIndexOf_le s '.' (tentativeEnd s cp)
      have h2 := jsLastIndexOf_le s '\n' (tentativeEnd s cp)
      have hmax : breakPointAt s cp
          ≤ ((min (tentativeEnd s cp) (s.length - 1) : Nat) : Int) :=
        max_le h1 h2
      omega
    · exact hm
  · exact hm

/-- The chunk list the source's while-loop pushes, starting at `cp`
(`chunks.push(rawText.slice(currentPos, endPos)); currentPos = endPos`). -/
def chunksFrom (s : List Char) (cp : Nat) : List (List Char) :=
  if h : cp < s.length then
    ((s.drop cp).take (chunkEnd s cp - cp)) :: chunksFrom s (chunkEnd s cp)
  else []
termination_by s.length - cp
decreasing_by
  have := chunkEnd_gt s cp h
  omega

/-- The start positions of the successive chunks (0, then each `endPos`). -/
def chunkStarts (s : List Char) (cp : Nat) : List Nat :=
  if h : cp < s.length then cp :: chunkStarts s (chunkEnd s cp) else []
termination_by s.length - cp
decreasing_by
  have := chunkEnd_gt s cp h
  omega

theorem chunksFrom_flatten (s : List Char) :
    ∀ n cp, s.length - cp ≤ n → (chunksFrom s cp).flatten = s.drop cp := by
  intro n
  induction n with
  | zero =>
    intro cp hcp
    rw [chunksFrom]
    have h : ¬ cp < s.length := by omega
    simp [h, List.drop_eq_nil_of_le (by omega : s.length ≤ cp)]
  | succ n ih =>
    intro cp hcp
    rw [chunksFrom]
    by_cases h : cp < s.length
    · simp only [h, dif_pos, List.flatten_cons]
      have hgt := chunkEnd_gt s cp h
      have hle := chunkEnd_le s cp
      rw [ih (chunkEnd s cp) (by omega)]
      have hdd : s.drop (chunkEnd s cp) =
          (s.drop cp).drop (chunkEnd s cp - cp) := by
        rw [List.drop_drop]
        congr 1
        omega
      rw [hdd, List.take_append_drop]
    · simp [h, List.drop_eq_nil_of_le (by omega : s.length ≤ cp)]

/-- C2: for text longer than the 6000-character chunk threshold, the chunking
step of smartMergeMultiPagePDF partitions the text exactly (concatenating the
chunks in order reproduces the input), and every internal chunk boundary ends
just after a '.' or newline whenever such a break exists strictly past the
chunk's midpoint (within the backward-search window ending at the tentative
chunk end). -/
theorem chunking_exact_and_breaks (s : List Char) (h : 6000 < s.length) :
    (chunksFrom s 0).flatten = s ∧
    ∀ cp ∈ chunkStarts s 0, chunkEnd s cp < s.length →
      (∃ j, cp + 3000 < j ∧ j ≤ cp + 6000 ∧
        (charAt s j = '.' ∨ charAt s j = '\n')) →
      (charAt s (chunkEnd s cp - 1) = '.' ∨ charAt s (chunkEnd s cp - 1) = '\n') := by
  constructor
  · simpa using chunksFrom_flatten s s.length 0 (by omega)
  · rintro cp - hint ⟨j, hj1, hj2, hc⟩
    have htent : tentativeEnd s cp < s.length := by
      by_contra hten
      have : chunkEnd s cp = tentativeEnd s cp := by
        unfold chunkEnd
        rw [if_neg hten]
      have h2 : tentativeEnd s cp ≤ s.length := min_le_right _ _
      omega
    have htval : tentativeEnd s cp = cp + 6000 := by
      unfold tentativeEnd at htent ⊢
      omega
    have hjlen : j < s.length := by omega
    have hjten : j ≤ tentativeEnd s cp := by omega
    have hbp : breakPointAt s cp > (cp : Int) + 3000 := by
      rcases hc with hc | hc
      · have := jsLastIndexOf_ge s '.' (tentativeEnd s cp) j hjten hjlen hc
        have hle : jsLastIndexOf s '.' (tentativeEnd s cp) ≤ breakPointAt s cp :=
          le_max_left _ _
        omega
      · have := jsLastIndexOf_ge s '\n' (tentativeEnd s cp) j hjten hjlen hc
        have hle : jsLastIndexOf s '\n' (tentativeEnd s cp) ≤ breakPointAt s cp :=
          le_max_right _ _
        omega
    have hend : chunkEnd s cp = (breakPointAt s cp).toNat + 1 := by
      unfold chunkEnd
      rw [if_pos htent, if_pos hbp]
    have hbp0 : 0 ≤ breakPointAt s cp := by omega
    have hsub : chunkEnd s cp - 1 = (breakPointAt s cp).toNat := by omega
    rw [hsub]
    rcases max_cases (jsLastIndexOf s '.' (tentativeEnd s cp))
        (jsLastIndexOf s '\n' (tentativeEnd s cp)) with ⟨hmx, -⟩ | ⟨hmx, -⟩
    · left
      have hbpeq : breakPointAt s cp = jsLastIndexOf s '.' (tentativeEnd s cp) := by
        unfold breakPointAt
        exact hmx
      have h0 : 0 ≤ jsLastIndexOf s '.' (tentativeEnd s cp) := by
        rw [← hbpeq]
        exact hbp0
      have hfound := jsLastIndexOf_found s '.' (tentativeEnd s cp) h0
      rw [hbpeq]
      exact hfound
    · right
      have hbpeq : breakPointAt s cp = jsLastIndexOf s '\n' (tentativeEnd s cp) := by
        unfold breakPointAt
        exact hmx
      have h0 : 0 ≤ jsLastIndexOf s '\n' (tentativeEnd s cp) := by
        rw [← hbpeq]
        exact hbp0
      have hfound := jsLastIndexOf_found s '\n' (tentativeEnd s cp) h0
      rw [hbpeq]
      exact hfound

/-- Witness for C2 at a concrete 6001-character text. -/
theorem chunking_exact_and_breaks_witness :
    (chunksFrom (List.replicate 6001 'a') 0).flatten = List.replicate 6001 'a' :=
  (chunking_exact_and_breaks (List.replicate 6001 'a')
    (by rw [List.length_replicate]; omega)).1

/-! ### MorphologyEngine (applyDilation lines 423-460, applyErosion lines 462-506)

Both operators read the first channel of a raw image and write a fresh
buffer initialised by `Buffer.alloc(data.length)` + `outputData.fill(255)`.
Dilation scatters: every dark source pixel sets its whole clipped
neighborhood (all channels) to 0. Erosion gathers: a pixel is set to 0 only
when every neighbor offset lands in bounds on a dark pixel. -/

/-- `Buffer.alloc(n)` followed by `outputData.fill(255)`. -/
def fill255 (n : Nat) : List Nat :=
  List.replicate n 255

/-- A run of `outputData[j] = 0` writes, in order. -/
def setZeros (a : List Nat) (idxs : List Nat) : List Nat :=
  idxs.foldl (fun acc j => acc.set j 0) a

/-- Kernel offsets `dy = -half .. half` in loop order. -/
def offsetsList (half : Nat) : List Int :=
  (List.range (2 * half + 1)).map (fun (i : Nat) => (i : Int) - (half : Int))

/-- The indices written by one dark source pixel (y, x) of the dilation:
all channels of every in-bounds neighbor. -/
def dilationWrites (img : RawImage) (half y x : Nat) : List Nat :=
  (offsetsList half).flatMap (fun dy =>
    (offsetsList half).flatMap (fun dx =>
      if 0 ≤ (y : Int) + dy ∧ (y : Int) + dy < (img.height : Int) ∧
          0 ≤ (x : Int) + dx ∧ (x : Int) + dx < (img.width : Int) then
        (List.range img.channels).map
          (fun c => (((y : Int) + dy).toNat * img.width + ((x : Int) + dx).toNat)
            * img.channels + c)
      else []))

/-- `applyDilation`'s double loop over pixels, scattering zeros from each
dark source pixel. Returns the output `data` buffer. -/
def applyDilationData (img : RawImage) (kernelSize : Nat) : List Nat :=
  (List.range img.height).foldl (fun acc y =>
    (List.range img.width).foldl (fun acc2 x =>
      if img.px y x < 128 then
        setZeros acc2 (dilationWrites img (kernelSize / 2) y x)
      else acc2) acc)
    (fill255 img.data.length)

/-- `applyDilation` as a whole: `sharp(outputData, {raw
{width,height,channels}}).png().toBuffer()` keeps the dimensions. -/
def applyDilationImg (img : RawImage) (kernelSize : Nat) : RawImage :=
  ⟨img.width, img.height, img.channels, applyDilationData img kernelSize⟩

/-- The erosion loop's `allBlack` flag for pixel (y, x): every offset lands
in bounds (`else allBlack = false`) on a dark pixel (`data[nidx] < 128`). -/
def allBlackAt (img : RawImage) (half y x : Nat) : Bool :=
  (offsetsList half).all (fun dy =>
    (offsetsList half).all (fun dx =>
      decide (0 ≤ (y : Int) + dy ∧ (y : Int) + dy < (img.height : Int) ∧
        0 ≤ (x : Int) + dx ∧ (x : Int) + dx < (img.width : Int)) &&
      decide (img.px ((y : Int) + dy).toNat ((x : Int) + dx).toNat < 128)))

/-- `applyErosion`'s double loop: pixel (y, x) is written dark (all its
channels set to 0) exactly when `allBlack` held. -/
def applyErosionData (img : RawImage) (kernelSize : Nat) : List Nat :=
  (List.range img.height).foldl (fun acc y =>
    (List.range img.width).foldl (fun acc2 x =>
      if allBlackAt img (kernelSize / 2) y x then
        setZeros acc2 ((List.range img.channels).map
          (fun c => (y * img.width + x) * img.channels + c))
      else acc2) acc)
    (fill255 img.data.length)

/-- `applyErosion` with its output dimensions. -/
def applyErosionImg (img : RawImage) (kernelSize : Nat) : RawImage :=
  ⟨img.width, img.height, img.channels, applyErosionData img kernelSize⟩

/-- `applyMorphologicalClosing`: dilation then erosion, raw-level. -/
def applyClosingImg (img : RawImage) (kernelSize : Nat) : RawImage :=
  applyErosionImg (applyDilationImg img kernelSize) kernelSize

/-- `applyMorphologicalOpening`: erosion then dilation, raw-level. -/
def applyOpeningImg (img : RawImage) (kernelSize : Nat) : RawImage :=
  applyDilationImg (applyErosionImg img kernelSize) kernelSize

theorem setZeros_length (idxs : List Nat) :
    ∀ a : List Nat, (setZeros a idxs).length = a.length := by
  induction idxs with
  | nil => intro a; rfl
  | cons j rest ih =>
    intro a
    show (setZeros (a.set j 0) rest).length = a.length
    rw [ih, List.length_set]

theorem setZeros_getElem?_of_not_mem (idxs : List Nat) :
    ∀ (a : List Nat) (i : Nat), i ∉ idxs → (setZeros a idxs)[i]? = a[i]? := by
  induction idxs with
  | nil => intro a i _; rfl
  | cons j rest ih =>
    intro a i hni
    have hij : j ≠ i := fun he => hni (he ▸ List.mem_cons_self j rest)
    have hir : i ∉ rest := fun hr => hni (List.mem_cons_of_mem j hr)
    show (setZeros (a.set j 0) rest)[i]? = a[i]?
    rw [ih _ _ hir, List.getElem?_set]
    simp [hij]

theorem setZeros_getElem?_of_mem (idxs : List Nat) :
    ∀ (a : List Nat) (i : Nat), i ∈ idxs → i < a.length →
      (setZeros a idxs)[i]? = some 0 := by
  induction idxs with
  | nil =>
    intro a i hmem _
    exact absurd hmem (List.not_mem_nil i)
  | cons j rest ih =>
    intro a i hmem hlen
    show (setZeros (a.set j 0) rest)[i]? = some 0
    by_cases hir : i ∈ rest
    · exact ih _ _ hir (by rw [List.length_set]; exact hlen)
    · have hij : i = j := by
        rcases List.mem_cons.mp hmem with h | h
        · exact h
        · exact absurd h hir
      rw [setZeros_getElem?_of_not_mem rest _ _ hir, List.getElem?_set]
      subst hij
      simp [hlen]

/-- One `outputData[j] = 0` run after another is the concatenated run. -/
theorem setZeros_append (a : List Nat) (l1 l2 : List Nat) :
    setZeros a (l1 ++ l2) = setZeros (setZeros a l1) l2 :=
  List.foldl_append ..

/-- Folding guarded scatter-writes over a pixel list is one big write run
over the guarding-passing pixels. -/
theorem foldl_if_setZeros {α : Type} (ps : List α) (pred : α → Prop)
    [DecidablePred pred] (f : α → List Nat) :
    ∀ a : List Nat,
      ps.foldl (fun acc p => if pred p then setZeros acc (f p) else acc) a
        = setZeros a (((ps.filter fun p => decide (pred p))).flatMap f) := by
  induction ps with
  | nil => intro a; rfl
  | cons p rest ih =>
    intro a
    by_cases hp : pred p
    · have hd : (decide (pred p)) = true := decide_eq_true hp
      simp only [List.foldl_cons, if_pos hp, List.filter_cons, hd, if_true,
        List.flatMap_cons, setZeros_append]
      exact ih _
    · have hd : (decide (pred p)) = false := decide_eq_false hp
      simp only [List.foldl_cons, if_neg hp, List.filter_cons, hd,
        Bool.false_eq_true, if_false]
      exact ih _

/-- Folding unguarded write runs is one big write run. -/
theorem foldl_setZeros {α : Type} (ps : List α) (g : α → List Nat) :
    ∀ a : List Nat,
      ps.foldl (fun acc p => setZeros acc (g p)) a = setZeros a (ps.flatMap g) := by
  induction ps with
  | nil => intro a; rfl
  | cons p rest ih =>
    intro a
    simp only [List.foldl_cons, List.flatMap_cons, setZeros_append]
    exact ih _

/-- Membership in a conditional block of writes. -/
theorem mem_ite_nil {α : Type} (p : Prop) [Decidable p] (l : List α) (a : α) :
    a ∈ (if p then l else []) ↔ p ∧ a ∈ l := by
  by_cases hp : p
  · simp [hp]
  · simp [hp]

/-- All indices the dilation loop zeroes, in loop order. -/
def dilationAllWrites (img : RawImage) (k : Nat) : List Nat :=
  (List.range img.height).flatMap (fun y =>
    (((List.range img.width).filter fun x => decide (img.px y x < 128))).flatMap
      (fun x => dilationWrites img (k / 2) y x))

/-- All indices the erosion loop zeroes, in loop order. -/
def erosionAllWrites (img : RawImage) (k : Nat) : List Nat :=
  (List.range img.height).flatMap (fun y =>
    (((List.range img.width).filter fun x =>
        decide (allBlackAt img (k / 2) y x = true))).flatMap
      (fun x => (List.range img.channels).map
        (fun c => (y * img.width + x) * img.channels + c)))

theorem applyDilationData_eq (img : RawImage) (k : Nat) :
    applyDilationData img k
      = setZeros (fill255 img.data.length) (dilationAllWrites img k) := by
  unfold applyDilationData dilationAllWrites
  simp only [foldl_if_setZeros, foldl_setZeros]

theorem applyErosionData_eq (img : RawImage) (k : Nat) :
    applyErosionData img k
      = setZeros (fill255 img.data.length) (erosionAllWrites img k) := by
  unfold applyErosionData erosionAllWrites
  simp only [foldl_if_setZeros, foldl_setZeros]

theorem mulAdd_inj (b a c a2 c2 : Nat) (hc : c < b) (hc2 : c2 < b)
    (he : a * b + c = a2 * b + c2) : a = a2 ∧ c = c2 := by
  have h1 : (a * b + c) % b = c := by
    rw [Nat.mul_comm a b, Nat.mul_add_mod]
    exact Nat.mod_eq_of_lt hc
  have h2 : (a2 * b + c2) % b = c2 := by
    rw [Nat.mul_comm a2 b, Nat.mul_add_mod]
    exact Nat.mod_eq_of_lt hc2
  have hcc : c = c2 := by rw [← h1, he, h2]
  have hb : 0 < b := by omega
  have haa : a = a2 := by
    have he2 := he
    rw [hcc] at he2
    have he3 : a * b = a2 * b := by omega
    exact Nat.eq_of_mul_eq_mul_right hb he3
  exact ⟨haa, hcc⟩

theorem pixIdx_inj (W ch y x c y2 x2 c2 : Nat) (hx : x < W) (hx2 : x2 < W)
    (hc : c < ch) (hc2 : c2 < ch)
    (he : (y * W + x) * ch + c = (y2 * W + x2) * ch + c2) :
    y = y2 ∧ x = x2 ∧ c = c2 := by
  obtain ⟨hp, hcc⟩ := mulAdd_inj ch (y * W + x) c (y2 * W + x2) c2 hc hc2 he
  obtain ⟨hyy, hxx⟩ := mulAdd_inj W y x y2 x2 hx hx2 hp
  exact ⟨hyy, hxx, hcc⟩

theorem pixIdx_lt (W H ch y x c : Nat) (hy : y < H) (hx : x < W) (hc : c < ch) :
    (y * W + x) * ch + c < W * H * ch := by
  have h1 : y * W + x + 1 ≤ H * W := by
    have h2 : y * W + W ≤ H * W := by
      have h3 : (y + 1) * W ≤ H * W := Nat.mul_le_mul_right W (by omega)
      calc y * W + W = (y + 1) * W := by ring
      _ ≤ H * W := h3
    omega
  calc (y * W + x) * ch + c < (y * W + x) * ch + ch := by omega
  _ = (y * W + x + 1) * ch := by ring
  _ ≤ H * W * ch := Nat.mul_le_mul_right ch h1
  _ = W * H * ch := by ring

theorem mem_offsetsList (half : Nat) (d : Int) :
    d ∈ offsetsList half ↔ -(half : Int) ≤ d ∧ d ≤ (half : Int) := by
  unfold offsetsList
  rw [List.mem_map]
  constructor
  · rintro ⟨i, hi, rfl⟩
    rw [List.mem_range] at hi
    omega
  · rintro ⟨h1, h2⟩
    refine ⟨(d + half).toNat, ?_, ?_⟩
    · rw [List.mem_range]
      omega
    · omega

/-- The claim-side gather reading of dilation: some in-bounds neighbor within
the half-radius square is dark in the source. -/
def DarkNeighborExists (img : RawImage) (half y x : Nat) : Prop :=
  ∃ dy ∈ offsetsList half, ∃ dx ∈ offsetsList half,
    (0 ≤ (y : Int) + dy ∧ (y : Int) + dy < (img.height : Int) ∧
      0 ≤ (x : Int) + dx ∧ (x : Int) + dx < (img.width : Int)) ∧
    img.px ((y : Int) + dy).toNat ((x : Int) + dx).toNat < 128

instance (img : RawImage) (half y x : Nat) :
    Decidable (DarkNeighborExists img half y x) := by
  unfold DarkNeighborExists
  infer_instance

/-- The claim-side reading of erosion: every offset of the half-radius
square lands inside the image on a dark source pixel. -/
def AllNeighborsDark (img : RawImage) (half y x : Nat) : Prop :=
  ∀ dy ∈ offsetsList half, ∀ dx ∈ offsetsList half,
    (0 ≤ (y : Int) + dy ∧ (y : Int) + dy < (img.height : Int) ∧
      0 ≤ (x : Int) + dx ∧ (x : Int) + dx < (img.width : Int)) ∧
    img.px ((y : Int) + dy).toNat ((x : Int) + dx).toNat < 128

theorem allBlackAt_iff (img : RawImage) (half y x : Nat) :
    allBlackAt img half y x = true ↔ AllNeighborsDark img half y x := by
  unfold allBlackAt AllNeighborsDark
  simp [List.all_eq_true, Bool.and_eq_true, decide_eq_true_eq]

theorem mem_dilationAllWrites_iff (img : RawImage) (k : Nat)
    (hch : 0 < img.channels) (y x : Nat) (hy : y < img.height) (hx : x < img.width) :
    ((y * img.width + x) * img.channels ∈ dilationAllWrites img k)
      ↔ DarkNeighborExists img (k / 2) y x := by
  unfold dilationAllWrites dilationWrites DarkNeighborExists
  simp only [List.mem_flatMap, List.mem_filter, List.mem_range, mem_ite_nil,
    List.mem_map, decide_eq_true_eq]
  constructor
  · rintro ⟨sy, hsy, sx, ⟨hsx, hdark⟩, dy, hdy, dx, hdx, hb, c, hclt, heq⟩
    obtain ⟨hb1, hb2, hb3, hb4⟩ := hb
    have hnx : ((sx : Int) + dx).toNat < img.width := by omega
    have hny : ((sy : Int) + dy).toNat < img.height := by omega
    have heq2 : (((sy : Int) + dy).toNat * img.width + ((sx : Int) + dx).toNat)
        * img.channels + c = (y * img.width + x) * img.channels + 0 := by omega
    obtain ⟨hyy, hxx, hcc⟩ := pixIdx_inj img.width img.channels _ _ c y x 0
      hnx hx hclt hch heq2
    rw [mem_offsetsList] at hdy hdx
    refine ⟨-dy, ?_, -dx, ?_, ⟨?_, ?_, ?_, ?_⟩, ?_⟩
    · rw [mem_offsetsList]
      omega
    · rw [mem_offsetsList]
      omega
    · omega
    · omega
    · omega
    · omega
    · have hyint : (y : Int) + -dy = (sy : Int) := by omega
      have hxint : (x : Int) + -dx = (sx : Int) := by omega
      rw [hyint, hxint]
      simpa using hdark
  · rintro ⟨dy, hdy, dx, hdx, ⟨hb1, hb2, hb3, hb4⟩, hdark⟩
    rw [mem_offsetsList] at hdy hdx
    refine ⟨((y : Int) + dy).toNat, by omega, ((x : Int) + dx).toNat,
      ⟨by omega, hdark⟩, -dy, ?_, -dx, ?_, ⟨?_, ?_, ?_, ?_⟩, 0, hch, ?_⟩
    · rw [mem_offsetsList]
      omega
    · rw [mem_offsetsList]
      omega
    · omega
    · omega
    · omega
    · omega
    · have hyint : ((((y : Int) + dy).toNat : Int) + -dy).toNat = y := by omega
      have hxint : ((((x : Int) + dx).toNat : Int) + -dx).toNat = x := by omega
      rw [hyint, hxint]
      omega

theorem mem_erosionAllWrites_iff (img : RawImage) (k : Nat)
    (hch : 0 < img.channels) (y x c : Nat) (hy : y < img.height)
    (hx : x < img.width) (hc : c < img.channels) :
    ((y * img.width + x) * img.channels + c ∈ erosionAllWrites img k)
      ↔ allBlackAt img (k / 2) y x = true := by
  unfold erosionAllWrites
  simp only [List.mem_flatMap, List.mem_filter, List.mem_range, List.mem_map,
    decide_eq_true_eq]
  constructor
  · rintro ⟨sy, hsy, sx, ⟨hsx, hblack⟩, c2, hc2, heq⟩
    have heq2 : (sy * img.width + sx) * img.channels + c2
        = (y * img.width + x) * img.channels + c := by omega
    obtain ⟨hyy, hxx, -⟩ := pixIdx_inj img.width img.channels sy sx c2 y x c
      hsx hx hc2 hc heq2
    rw [← hyy, ← hxx]
    exact hblack
  · intro hblack
    exact ⟨y, hy, x, ⟨hx, hblack⟩, c, hc, rfl⟩

theorem fill255_length (n : Nat) : (fill255 n).length = n :=
  List.length_replicate n 255

theorem dilation_getD_eq (img : RawImage) (k : Nat) (hwf : img.Wf)
    (hch : 0 < img.channels) (y x : Nat) (hy : y < img.height)
    (hx : x < img.width) :
    (applyDilationData img k).getD ((y * img.width + x) * img.channels) 0
      = if DarkNeighborExists img (k / 2) y x then 0 else 255 := by
  have hidx : (y * img.width + x) * img.channels < img.data.length := by
    have := pixIdx_lt img.width img.height img.channels y x 0 hy hx hch
    rw [hwf]
    omega
  rw [applyDilationData_eq, List.getD_eq_getElem?_getD]
  by_cases hmem : (y * img.width + x) * img.channels ∈ dilationAllWrites img k
  · rw [setZeros_getElem?_of_mem _ _ _ hmem (by rw [fill255_length]; exact hidx)]
    rw [if_pos ((mem_dilationAllWrites_iff img k hch y x hy hx).mp hmem)]
    rfl
  · rw [setZeros_getElem?_of_not_mem _ _ _ hmem]
    rw [if_neg (fun hd => hmem ((mem_dilationAllWrites_iff img k hch y x hy hx).mpr hd))]
    unfold fill255
    rw [List.getElem?_replicate, if_pos hidx]
    rfl

theorem erosion_getD_eq (img : RawImage) (k : Nat) (hwf : img.Wf)
    (hch : 0 < img.channels) (y x c : Nat) (hy : y < img.height)
    (hx : x < img.width) (hc : c < img.channels) :
    (applyErosionData img k).getD ((y * img.width + x) * img.channels + c) 0
      = if allBlackAt img (k / 2) y x = true then 0 else 255 := by
  have hidx : (y * img.width + x) * img.channels + c < img.data.length := by
    have := pixIdx_lt img.width img.height img.channels y x c hy hx hc
    rw [hwf]
    omega
  rw [applyErosionData_eq, List.getD_eq_getElem?_getD]
  by_cases hmem : (y * img.width + x) * img.channels + c ∈ erosionAllWrites img k
  · rw [setZeros_getElem?_of_mem _ _ _ hmem (by rw [fill255_length]; exact hidx)]
    rw [if_pos ((mem_erosionAllWrites_iff img k hch y x c hy hx hc).mp hmem)]
    rfl
  · rw [setZeros_getElem?_of_not_mem _ _ _ hmem]
    rw [if_neg (fun hd => hmem ((mem_erosionAllWrites_iff img k hch y x c hy hx hc).mpr hd))]
    unfold fill255
    rw [List.getElem?_replicate, if_pos hidx]
    rfl

/-- C7: the scatter-style dilation (each dark source pixel zeroing its whole
clipped neighborhood) computes exactly the per-pixel gather definition: an
output pixel is dark (0) iff some in-bounds pixel of its half-radius square
neighborhood is dark (first channel < 128) in the source. -/
theorem dilation_scatter_matches_gather (img : RawImage) (k : Nat)
    (_hk : k % 2 = 1) (hwf : img.Wf) (hch : 0 < img.channels)
    (y x : Nat) (hy : y < img.height) (hx : x < img.width) :
    (applyDilationData img k).getD ((y * img.width + x) * img.channels) 0 = 0
      ↔ DarkNeighborExists img (k / 2) y x := by
  rw [dilation_getD_eq img k hwf hch y x hy hx]
  by_cases hd : DarkNeighborExists img (k / 2) y x
  · simp [hd]
  · simp [hd]

/-- Witness for C7 on a concrete 2-by-1 single-channel image whose left
pixel is dark, with the default kernel size 3. -/
theorem dilation_scatter_matches_gather_witness :
    (applyDilationData ⟨2, 1, 1, [0, 255]⟩ 3).getD ((0 * 2 + 0) * 1) 0 = 0
      ↔ DarkNeighborExists ⟨2, 1, 1, [0, 255]⟩ (3 / 2) 0 0 :=
  dilation_scatter_matches_gather ⟨2, 1, 1, [0, 255]⟩ 3 (by decide) (by decide)
    (by decide) 0 0 (by decide) (by decide)

/-- C6: erosion makes an output pixel dark (0) iff every offset of its
half-radius square neighborhood lands inside the image on a dark source
pixel; consequently every pixel within half of the image border stays 255
(not dark). -/
theorem erosion_requires_all_dark (img : RawImage) (k : Nat)
    (_hk : k % 2 = 1) (hwf : img.Wf) (hch : 0 < img.channels)
    (y x : Nat) (hy : y < img.height) (hx : x < img.width) :
    ((applyErosionData img k).getD ((y * img.width + x) * img.channels) 0 = 0
      ↔ AllNeighborsDark img (k / 2) y x) ∧
    ((y < k / 2 ∨ x < k / 2 ∨ img.height ≤ y + k / 2 ∨ img.width ≤ x + k / 2) →
      (applyErosionData img k).getD ((y * img.width + x) * img.channels) 0 = 255) := by
  have hbase : (applyErosionData img k).getD ((y * img.width + x) * img.channels) 0
      = if allBlackAt img (k / 2) y x = true then 0 else 255 := by
    have := erosion_getD_eq img k hwf hch y x 0 hy hx hch
    simpa using this
  have h0 : (0 : Int) ∈ offsetsList (k / 2) := by
    rw [mem_offsetsList]
    omega
  have hneg : -(((k / 2 : Nat)) : Int) ∈ offsetsList (k / 2) := by
    rw [mem_offsetsList]
    omega
  have hpos : (((k / 2 : Nat)) : Int) ∈ offsetsList (k / 2) := by
    rw [mem_offsetsList]
    omega
  constructor
  · rw [hbase, ← allBlackAt_iff]
    by_cases hb : allBlackAt img (k / 2) y x = true
    · simp [hb]
    · simp [hb]
  · intro hborder
    have hnb : ¬ allBlackAt img (k / 2) y x = true := by
      intro hb
      rw [allBlackAt_iff] at hb
      unfold AllNeighborsDark at hb
      rcases hborder with h | h | h | h
      · obtain ⟨⟨hb1, -, -, -⟩, -⟩ := hb (-(((k / 2 : Nat)) : Int)) hneg 0 h0
        omega
      · obtain ⟨⟨-, -, hb3, -⟩, -⟩ := hb 0 h0 (-(((k / 2 : Nat)) : Int)) hneg
        omega
      · obtain ⟨⟨-, hb2, -, -⟩, -⟩ := hb (((k / 2 : Nat)) : Int) hpos 0 h0
        omega
      · obtain ⟨⟨-, -, -, hb4⟩, -⟩ := hb 0 h0 (((k / 2 : Nat)) : Int) hpos
        omega
    rw [hbase, if_neg hnb]

/-- Witness for C6 on a concrete 2-by-1 single-channel image with kernel
size 3. -/
theorem erosion_requires_all_dark_witness :
    ((applyErosionData ⟨2, 1, 1, [0, 255]⟩ 3).getD ((0 * 2 + 0) * 1) 0 = 0
      ↔ AllNeighborsDark ⟨2, 1, 1, [0, 255]⟩ (3 / 2) 0 0) ∧
    ((0 < 3 / 2 ∨ 0 < 3 / 2 ∨ (1 : Nat) ≤ 0 + 3 / 2 ∨ (2 : Nat) ≤ 0 + 3 / 2) →
      (applyErosionData ⟨2, 1, 1, [0, 255]⟩ 3).getD ((0 * 2 + 0) * 1) 0 = 255) :=
  erosion_requires_all_dark ⟨2, 1, 1, [0, 255]⟩ 3 (by decide) (by decide)
    (by decide) 0 0 (by decide) (by decide)

/-- C10: dilation is extensive and erosion anti-extensive on dark pixels:
a pixel dark (< 128) in the input is dark (0) in the dilation output, and a
pixel dark (0) in the erosion output was dark (< 128) in the input. -/
theorem dilation_extensive_erosion_antiextensive (img : RawImage) (k : Nat)
    (hwf : img.Wf) (hch : 0 < img.channels)
    (y x : Nat) (hy : y < img.height) (hx : x < img.width) :
    (img.px y x < 128 →
      (applyDilationData img k).getD ((y * img.width + x) * img.channels) 0 = 0) ∧
    ((applyErosionData img k).getD ((y * img.width + x) * img.channels) 0 = 0 →
      img.px y x < 128) := by
  have h0 : (0 : Int) ∈ offsetsList (k / 2) := by
    rw [mem_offsetsList]
    omega
  constructor
  · intro hdark
    rw [dilation_getD_eq img k hwf hch y x hy hx, if_pos]
    refine ⟨0, h0, 0, h0, ⟨by omega, by omega, by omega, by omega⟩, ?_⟩
    simpa using hdark
  · intro hz
    have hbase : (applyErosionData img k).getD ((y * img.width + x) * img.channels) 0
        = if allBlackAt img (k / 2) y x = true then 0 else 255 := by
      have := erosion_getD_eq img k hwf hch y x 0 hy hx hch
      simpa using this
    rw [hbase] at hz
    by_cases hb : allBlackAt img (k / 2) y x = true
    · rw [allBlackAt_iff] at hb
      obtain ⟨-, hdark⟩ := hb 0 h0 0 h0
      simpa using hdark
    · rw [if_neg hb] at hz
      exact absurd hz (by decide)

/-- Witness for C10 on a concrete 1-by-2 single-channel image with kernel
size 5. -/
theorem dilation_extensive_erosion_antiextensive_witness :
    ((⟨1, 2, 1, [0, 200]⟩ : RawImage).px 0 0 < 128 →
      (applyDilationData ⟨1, 2, 1, [0, 200]⟩ 5).getD ((0 * 1 + 0) * 1) 0 = 0) ∧
    ((applyErosionData ⟨1, 2, 1, [0, 200]⟩ 5).getD ((0 * 1 + 0) * 1) 0 = 0 →
      (⟨1, 2, 1, [0, 200]⟩ : RawImage).px 0 0 < 128) :=
  dilation_extensive_erosion_antiextensive ⟨1, 2, 1, [0, 200]⟩ 5 (by decide)
    (by decide) 0 0 (by decide) (by decide)

/-! ### AdaptiveThresholder (applyAdaptiveThreshold, lines 520-571)

The source builds a summed-area table `integral` of size (W+1)*(H+1) over
the first channel, then for each pixel queries the clipped blockSize-sided
window around it in O(1), takes `localMean = sum / area`, and writes
`pixel > localMean - C ? 255 : 0` to every channel of that pixel. The table
and the query arithmetic live in JavaScript doubles; all intermediate values
are integers (exactly representable for any realistic image), and the final
division is modelled exactly in `Rat`. -/

/-- The running `rowSum` after adding column x of row y. -/
def rowSumT (img : RawImage) (y : Nat) : Nat → Nat
  | 0 => img.px y 0
  | x + 1 => rowSumT img y x + img.px y (x + 1)

/-- Entry `integral[r * (width+1) + c]` of the table the source fills:
row 0 and column 0 stay 0, and
`integral[(y+1)*(W+1)+(x+1)] = integral[y*(W+1)+(x+1)] + rowSum_after_x`. -/
def integralT (img : RawImage) : Nat → Nat → Nat
  | 0, _ => 0
  | _ + 1, 0 => 0
  | y + 1, x + 1 => integralT img y (x + 1) + rowSumT img y x

theorem rowSumT_eq (img : RawImage) (y : Nat) :
    ∀ x, rowSumT img y x = ∑ i ∈ Finset.range (x + 1), img.px y i := by
  intro x
  induction x with
  | zero => simp [rowSumT]
  | succ x ih =>
    show rowSumT img y x + img.px y (x + 1) = _
    rw [Finset.sum_range_succ, ← ih]

theorem integralT_eq (img : RawImage) :
    ∀ r c, integralT img r c
      = ∑ yy ∈ Finset.range r, ∑ xx ∈ Finset.range c, img.px yy xx := by
  intro r
  induction r with
  | zero =>
    intro c
    simp [integralT]
  | succ r ih =>
    intro c
    cases c with
    | zero => simp [integralT]
    | succ x =>
      show integralT img r (x + 1) + rowSumT img r x = _
      rw [Finset.sum_range_succ, ih (x + 1), rowSumT_eq]

theorem integralT_cast (img : RawImage) (r c : Nat) :
    ((integralT img r c : Nat) : Int)
      = ∑ yy ∈ Finset.range r, ∑ xx ∈ Finset.range c, (img.px yy xx : Int) := by
  rw [integralT_eq]
  push_cast
  rfl

/-- The four-corner query
`integral[(y2+1)(W+1)+(x2+1)] - integral[(y2+1)(W+1)+x1]
 - integral[y1(W+1)+(x2+1)] + integral[y1(W+1)+x1]`. -/
def windowSumT (img : RawImage) (y1 x1 y2 x2 : Nat) : Int :=
  (integralT img (y2 + 1) (x2 + 1) : Int) - (integralT img (y2 + 1) x1 : Int)
    - (integralT img y1 (x2 + 1) : Int) + (integralT img y1 x1 : Int)

/-- The integral-table query equals the direct rectangular sum. -/
theorem windowSumT_eq (img : RawImage) (y1 x1 y2 x2 : Nat)
    (hy : y1 ≤ y2 + 1) (hx : x1 ≤ x2 + 1) :
    windowSumT img y1 x1 y2 x2
      = ∑ yy ∈ Finset.Ico y1 (y2 + 1), ∑ xx ∈ Finset.Ico x1 (x2 + 1),
          (img.px yy xx : Int) := by
  unfold windowSumT
  rw [integralT_cast, integralT_cast, integralT_cast, integralT_cast]
  rw [Finset.sum_Ico_eq_sub _ hy]
  have hinner : ∀ yy, ∑ xx ∈ Finset.Ico x1 (x2 + 1), (img.px yy xx : Int)
      = (∑ xx ∈ Finset.range (x2 + 1), (img.px yy xx : Int))
        - ∑ xx ∈ Finset.range x1, (img.px yy xx : Int) :=
    fun yy => Finset.sum_Ico_eq_sub _ hx
  simp only [hinner, Finset.sum_sub_distrib]
  ring

/-- `x1 = Math.max(0, x - halfBlock)` (Nat subtraction clips at 0). -/
def threshX1 (blockSize x : Nat) : Nat := x - blockSize / 2

/-- `x2 = Math.min(width - 1, x + halfBlock)`. -/
def threshX2 (img : RawImage) (blockSize x : Nat) : Nat :=
  min (img.width - 1) (x + blockSize / 2)

/-- `y1 = Math.max(0, y - halfBlock)`. -/
def threshY1 (blockSize y : Nat) : Nat := y - blockSize / 2

/-- `y2 = Math.min(height - 1, y + halfBlock)`. -/
def threshY2 (img : RawImage) (blockSize y : Nat) : Nat :=
  min (img.height - 1) (y + blockSize / 2)

/-- `area = (x2 - x1 + 1) * (y2 - y1 + 1)`. -/
def threshArea (img : RawImage) (blockSize y x : Nat) : Nat :=
  (threshX2 img blockSize x - threshX1 blockSize x + 1)
    * (threshY2 img blockSize y - threshY1 blockSize y + 1)

/-- The per-pixel body: `localMean = sum / area`,
`newValue = pixelValue > localMean - C ? 255 : 0`. -/
def thresholdValueAt (img : RawImage) (blockSize : Nat) (C : Rat) (y x : Nat) : Nat :=
  if (img.px y x : Rat) >
      ((windowSumT img (threshY1 blockSize y) (threshX1 blockSize x)
          (threshY2 img blockSize y) (threshX2 img blockSize x) : Int) : Rat)
        / ((threshArea img blockSize y x : Nat) : Rat) - C
  then 255 else 0

/-- The output buffer: `Buffer.alloc(data.length)` (zeroes), after the loop
wrote `newValue` to all channels of every pixel. Each index below
`W*H*channels` is written exactly once, by its own pixel's iteration; the
remaining alloc-zero bytes (none, on a well-formed image) stay 0. -/
def applyAdaptiveThresholdData (img : RawImage) (blockSize : Nat) (C : Rat) : List Nat :=
  (List.range img.data.length).map (fun i =>
    if i < img.width * img.height * img.channels then
      thresholdValueAt img blockSize C ((i / img.channels) / img.width)
        ((i / img.channels) % img.width)
    else 0)

/-- `applyAdaptiveThreshold` re-encodes the written buffer with the input's
dimensions (`sharp(outputData, {raw: {width, height, channels}})`). -/
def applyAdaptiveThresholdImg (img : RawImage) (blockSize : Nat) (C : Rat) : RawImage :=
  ⟨img.width, img.height, img.channels, applyAdaptiveThresholdData img blockSize C⟩

/-- The spec-side exact mean of first-channel intensities over the clipped
blockSize-sided window centred on (y, x). -/
def directLocalMean (img : RawImage) (blockSize y x : Nat) : Rat :=
  ((∑ yy ∈ Finset.Ico (threshY1 blockSize y) (threshY2 img blockSize y + 1),
      ∑ xx ∈ Finset.Ico (threshX1 blockSize x) (threshX2 img blockSize x + 1),
        (img.px yy xx : Int) : Int) : Rat)
    / ((threshArea img blockSize y x : Nat) : Rat)

theorem pixIdx_decode (W ch y x c : Nat) (hx : x < W) (hc : c < ch) :
    (((y * W + x) * ch + c) / ch) / W = y
      ∧ (((y * W + x) * ch + c) / ch) % W = x := by
  have hch : 0 < ch := by omega
  have hW : 0 < W := by omega
  have h1 : ((y * W + x) * ch + c) / ch = y * W + x := by
    rw [Nat.mul_comm (y * W + x) ch, Nat.mul_add_div hch]
    simp [Nat.div_eq_of_lt hc]
  have h2 : y * W + x = x + W * y := by ring
  constructor
  · rw [h1, h2, Nat.add_mul_div_left _ _ hW, Nat.div_eq_of_lt hx]
    omega
  · rw [h1, h2, Nat.add_mul_mod_self_left, Nat.mod_eq_of_lt hx]

/-- C3: applyAdaptiveThreshold writes to every channel of each pixel 255 iff
the pixel's first-channel intensity strictly exceeds the exact local mean
(direct rectangular sum over the clipped blockSize-sided window, the
integral-table query being equal to it) minus C, and 0 otherwise; the
output keeps the input's width, height, channel count and byte length. -/
theorem adaptiveThreshold_is_local_mean_mask (img : RawImage) (blockSize : Nat)
    (C : Rat) (hwf : img.Wf) (hch : 0 < img.channels) (y x c : Nat)
    (hy : y < img.height) (hx : x < img.width) (hc : c < img.channels) :
    (applyAdaptiveThresholdImg img blockSize C).width = img.width ∧
    (applyAdaptiveThresholdImg img blockSize C).height = img.height ∧
    (applyAdaptiveThresholdImg img blockSize C).channels = img.channels ∧
    (applyAdaptiveThresholdImg img blockSize C).data.length = img.data.length ∧
    (applyAdaptiveThresholdImg img blockSize C).data.getD
        ((y * img.width + x) * img.channels + c) 0
      = if (img.px y x : Rat) > directLocalMean img blockSize y x - C
        then 255 else 0 := by
  have hidx : (y * img.width + x) * img.channels + c < img.data.length := by
    have := pixIdx_lt img.width img.height img.channels y x c hy hx hc
    rw [hwf]
    omega
  have hidx2 : (y * img.width + x) * img.channels + c
      < img.width * img.height * img.channels :=
    pixIdx_lt img.width img.height img.channels y x c hy hx hc
  refine ⟨rfl, rfl, rfl, ?_, ?_⟩
  · show (applyAdaptiveThresholdData img blockSize C).length = _
    unfold applyAdaptiveThresholdData
    rw [List.length_map, List.length_range]
  · show (applyAdaptiveThresholdData img blockSize C).getD _ 0 = _
    unfold applyAdaptiveThresholdData
    rw [List.getD_eq_getElem?_getD, List.getElem?_map, List.getElem?_range hidx]
    simp only [Option.map_some', Option.getD_some, if_pos hidx2]
    obtain ⟨hdy, hdx⟩ := pixIdx_decode img.width img.channels y x c hx hc
    rw [hdy, hdx]
    have hy1 : threshY1 blockSize y ≤ threshY2 img blockSize y + 1 := by
      unfold threshY1 threshY2
      omega
    have hx1 : threshX1 blockSize x ≤ threshX2 img blockSize x + 1 := by
      unfold threshX1 threshX2
      omega
    unfold thresholdValueAt directLocalMean
    rw [← windowSumT_eq img _ _ _ _ hy1 hx1]

/-- Witness for C3 on a concrete 1-by-1 image with the attempt-1 parameters
blockSize 21, C 8. -/
theorem adaptiveThreshold_is_local_mean_mask_witness :
    (applyAdaptiveThresholdImg ⟨1, 1, 1, [100]⟩ 21 8).width = 1 ∧
    (applyAdaptiveThresholdImg ⟨1, 1, 1, [100]⟩ 21 8).height = 1 ∧
    (applyAdaptiveThresholdImg ⟨1, 1, 1, [100]⟩ 21 8).channels = 1 ∧
    (applyAdaptiveThresholdImg ⟨1, 1, 1, [100]⟩ 21 8).data.length
      = (⟨1, 1, 1, [100]⟩ : RawImage).data.length ∧
    (applyAdaptiveThresholdImg ⟨1, 1, 1, [100]⟩ 21 8).data.getD
        ((0 * 1 + 0) * 1 + 0) 0
      = if ((⟨1, 1, 1, [100]⟩ : RawImage).px 0 0 : Rat)
            > directLocalMean ⟨1, 1, 1, [100]⟩ 21 0 0 - 8
        then 255 else 0 :=
  adaptiveThreshold_is_local_mean_mask ⟨1, 1, 1, [100]⟩ 21 8 (by decide)
    (by decide) 0 0 0 (by decide) (by decide) (by decide)

/-! ### SkewEstimator (estimateSkewAngle, lines 357-406)

For each candidate angle the source rotates the buffer on a white
background, decodes it raw, counts dark pixels per row, and scores the
candidate by the variance of those counts; `(bestAngle, maxVariance)`
starts at (0, 0) and is replaced on strict improvement. Any thrown error
in the surrounding try-block yields 0. -/

/-- Dark-pixel count of row y (`rowSum += rotData[idx] < 128 ? 1 : 0`). -/
def rowDarkCount (img : RawImage) (y : Nat) : Nat :=
  (List.range img.width).countP (fun x => decide (img.px y x < 128))

/-- The `rowSums` array. -/
def rowSumsList (img : RawImage) : List Nat :=
  (List.range img.height).map (fun y => rowDarkCount img y)

/-- `mean = rowSums.reduce((a,b) => a+b, 0) / rowSums.length`. On an empty
row list JavaScript divides by 0 giving NaN, whose comparisons are all
false; Rat's 0-denominator convention gives 0 there, and a 0 score likewise
never beats `maxVariance`, so the update behavior agrees. -/
def meanOfCounts (l : List Nat) : Rat :=
  ((l.sum : Nat) : Rat) / (l.length : Rat)

/-- `variance = rowSums.reduce((s,v) => s + (v - mean)^2, 0) /
rowSums.length`. -/
def varianceOfCounts (l : List Nat) : Rat :=
  ((l.map (fun v => ((v : Rat) - meanOfCounts l) ^ 2)).sum) / (l.length : Rat)

/-- One candidate's score: rotate on white background, decode raw, take the
variance of the row dark-counts. -/
def rotatedVariance (env : Env) (buf : ImgBuffer) (angle : Int) : Option Rat := do
  let rot ← env.rotate angle buf
  let rimg ← env.rawDecode rot
  pure (varianceOfCounts (rowSumsList rimg))

/-- `const testAngles = [-5, -4, -3, -2, -1, 0, 1, 2, 3, 4, 5]`. -/
def testAngles : List Int := [-5, -4, -3, -2, -1, 0, 1, 2, 3, 4, 5]

/-- `if (variance > maxVariance) { maxVariance = variance; bestAngle =
angle }`. -/
def skewStep (acc : Int × Rat) (p : Int × Rat) : Int × Rat :=
  if p.2 > acc.2 then p else acc

/-- The candidate loop, threading `(bestAngle, maxVariance)`. -/
def skewFoldAux (env : Env) (buf : ImgBuffer) :
    List Int → (Int × Rat) → Option (Int × Rat)
  | [], acc => some acc
  | a :: rest, acc => do
    let v ← rotatedVariance env buf a
    skewFoldAux env buf rest (skewStep acc (a, v))

/-- The try-block of `estimateSkewAngle`: raw-decode the input (its result
is only used through the loop's own decodes), run the candidate loop from
`(bestAngle, maxVariance) = (0, 0)`, return `bestAngle`. -/
def skewTryBody (env : Env) (buf : ImgBuffer) : Option Int :=
  (env.rawDecode buf).bind (fun _ =>
    (skewFoldAux env buf testAngles (0, 0)).bind (fun acc => some acc.1))

/-- `estimateSkewAngle`: the try-block's angle, or 0 from the catch-block
on any failure. -/
def estimateSkewAngle (env : Env) (buf : ImgBuffer) : Int :=
  (skewTryBody env buf).getD 0

/-- The scores of a list of candidates, `none` when any rotate/decode
throws. -/
def varListOf (env : Env) (buf : ImgBuffer) : List Int → Option (List Rat)
  | [] => some []
  | a :: rest =>
    (rotatedVariance env buf a).bind (fun v =>
      (varListOf env buf rest).bind (fun vs => some (v :: vs)))

/-- The scores of the eleven candidates. -/
def angleVariances (env : Env) (buf : ImgBuffer) : Option (List Rat) :=
  varListOf env buf testAngles

theorem skewFoldAux_eq (env : Env) (buf : ImgBuffer) :
    ∀ (l : List Int) (acc : Int × Rat),
      skewFoldAux env buf l acc
        = (varListOf env buf l).map (fun vs => (l.zip vs).foldl skewStep acc) := by
  intro l
  induction l with
  | nil =>
    intro acc
    rfl
  | cons a rest ih =>
    intro acc
    show (rotatedVariance env buf a).bind
        (fun v => skewFoldAux env buf rest (skewStep acc (a, v))) = _
    cases hv : rotatedVariance env buf a with
    | none =>
      show none = Option.map _ ((rotatedVariance env buf a).bind _)
      rw [hv]
      rfl
    | some v =>
      show skewFoldAux env buf rest (skewStep acc (a, v))
          = Option.map _ ((rotatedVariance env buf a).bind _)
      rw [hv, ih (skewStep acc (a, v))]
      cases hrest : varListOf env buf rest with
      | none => rfl
      | some vs => rfl

theorem varListOf_length (env : Env) (buf : ImgBuffer) :
    ∀ (l : List Int) (vs : List Rat), varListOf env buf l = some vs →
      vs.length = l.length := by
  intro l
  induction l with
  | nil =>
    intro vs h
    cases h
    rfl
  | cons a rest ih =>
    intro vs h
    show vs.length = rest.length + 1
    unfold varListOf at h
    cases hv : rotatedVariance env buf a with
    | none => rw [hv] at h; cases h
    | some v =>
      rw [hv] at h
      cases hrest : varListOf env buf rest with
      | none => rw [hrest] at h; cases h
      | some vs2 =>
        rw [hrest] at h
        cases h
        rw [List.length_cons, ih vs2 hrest]

theorem foldl_skewStep_const (l : List (Int × Rat)) :
    ∀ acc, (∀ p ∈ l, p.2 ≤ acc.2) → l.foldl skewStep acc = acc := by
  induction l with
  | nil => intro acc _; rfl
  | cons p rest ih =>
    intro acc hle
    rw [List.foldl_cons]
    have hp : p.2 ≤ acc.2 := hle p (List.mem_cons_self p rest)
    have hstep : skewStep acc p = acc := if_neg (not_lt.mpr hp)
    rw [hstep]
    exact ih acc (fun q hq => hle q (List.mem_cons_of_mem _ hq))

theorem foldl_skewStep_firstmax (l : List (Int × Rat)) :
    ∀ acc, (∃ p ∈ l, acc.2 < p.2) →
      ∃ l1 r l2, l = l1 ++ r :: l2 ∧ l.foldl skewStep acc = r ∧ acc.2 < r.2
        ∧ (∀ p ∈ l1, p.2 < r.2) ∧ (∀ p ∈ l2, p.2 ≤ r.2) := by
  induction l with
  | nil =>
    rintro acc ⟨p, hp, -⟩
    exact absurd hp (List.not_mem_nil p)
  | cons p rest ih =>
    intro acc hex
    rw [List.foldl_cons]
    by_cases hgt : p.2 > acc.2
    · have hstep : skewStep acc p = p := if_pos hgt
      rw [hstep]
      by_cases hrest : ∃ q ∈ rest, p.2 < q.2
      · obtain ⟨l1, r, l2, heq, hfold, hlt, hl1, hl2⟩ := ih p hrest
        refine ⟨p :: l1, r, l2, by rw [heq, List.cons_append], hfold,
          lt_trans hgt hlt, ?_, hl2⟩
        intro q hq
        rcases List.mem_cons.mp hq with h | h
        · rw [h]; exact hlt
        · exact hl1 q h
      · push_neg at hrest
        refine ⟨[], p, rest, rfl, ?_, hgt, by simp, hrest⟩
        exact foldl_skewStep_const rest p hrest
    · have hstep : skewStep acc p = acc := if_neg hgt
      rw [hstep]
      have hex2 : ∃ q ∈ rest, acc.2 < q.2 := by
        obtain ⟨q, hq, hlt⟩ := hex
        rcases List.mem_cons.mp hq with h | h
        · exact absurd (h ▸ hlt) hgt
        · exact ⟨q, h, hlt⟩
      obtain ⟨l1, r, l2, heq, hfold, hlt, hl1, hl2⟩ := ih acc hex2
      refine ⟨p :: l1, r, l2, by rw [heq, List.cons_append], hfold, hlt, ?_, hl2⟩
      intro q hq
      rcases List.mem_cons.mp hq with h | h
      · rw [h]; exact lt_of_le_of_lt (not_lt.mp hgt) hlt
      · exact hl1 q h

/-- Modelled from the spec: "the integer candidate angle from [-5,5] that
maximizes the variance of per-row counts of dark pixels ... ties broken in
favor of the first-seen candidate in ascending angle order", over the same
rotated decodes; `none` when a rotation or decode fails. -/
def claimedSkewAngle (env : Env) (buf : ImgBuffer) : Option Int :=
  (angleVariances env buf).bind (fun vs =>
    ((testAngles.zip vs).find?
      (fun p => decide (∀ q ∈ testAngles.zip vs, q.2 ≤ p.2))).map
      (fun p => p.1))

/-- Environment for the C5 counterexample: every rotation decodes to the
all-white 1-by-1 image, so every candidate scores variance 0. -/
def envAllWhite : Env :=
  ⟨false, fun _ => none, fun _ => none, fun _ => none, fun _ _ _ => none,
   fun _ _ => none, fun _ _ => none, fun _ _ _ => none,
   fun _ _ => some [], fun _ => some ⟨1, 1, 1, [255]⟩, fun _ => none,
   fun _ => [], fun _ => none, fun _ _ _ _ => none, fun _ => none⟩

/-- The eleven zero scores of the counterexample environment. -/
def zerosC5 : List Rat := [0, 0, 0, 0, 0, 0, 0, 0, 0, 0, 0]

/-- The candidate/score pairs of the counterexample environment. -/
def pairsC5 : List (Int × Rat) :=
  [(-5, 0), (-4, 0), (-3, 0), (-2, 0), (-1, 0), (0, 0),
   (1, 0), (2, 0), (3, 0), (4, 0), (5, 0)]

/-- C5 counterexample: with every candidate variance equal (all zero), the
first-seen candidate in ascending order is -5, but estimateSkewAngle keeps
its initializer `bestAngle = 0` because only strict improvements replace
it. -/
theorem estimateSkewAngle_counterexample :
    estimateSkewAngle envAllWhite [0] = 0
      ∧ claimedSkewAngle envAllWhite [0] = some (-5)
      ∧ (0 : Int) ≠ -5 := by
  have hrs : rowSumsList ⟨1, 1, 1, [255]⟩ = [0] := rfl
  have hv : varianceOfCounts [0] = 0 := by
    simp [varianceOfCounts, meanOfCounts]
  have hrot : ∀ a : Int, rotatedVariance envAllWhite [0] a = some 0 := by
    intro a
    have h1 : rotatedVariance envAllWhite [0] a
        = some (varianceOfCounts (rowSumsList ⟨1, 1, 1, [255]⟩)) := rfl
    rw [h1, hrs, hv]
  have hcons : ∀ (a : Int) (rest : List Int) (vs : List Rat),
      varListOf envAllWhite [0] rest = some vs →
      varListOf envAllWhite [0] (a :: rest) = some (0 :: vs) := by
    intro a rest vs hrest
    unfold varListOf
    rw [hrot a, Option.some_bind, hrest, Option.some_bind]
  have hnil : varListOf envAllWhite [0] [] = some [] := rfl
  have hvarL : varListOf envAllWhite [0] testAngles = some zerosC5 :=
    hcons _ _ _ (hcons _ _ _ (hcons _ _ _ (hcons _ _ _ (hcons _ _ _
      (hcons _ _ _ (hcons _ _ _ (hcons _ _ _ (hcons _ _ _ (hcons _ _ _
        (hcons _ _ _ hnil))))))))))
  have hzip : testAngles.zip zerosC5 = pairsC5 := rfl
  have hall : ∀ q ∈ pairsC5, q.2 ≤ ((((-5 : Int), (0 : Rat)) : Int × Rat)).2 := by
    intro q hq
    simp only [pairsC5, List.mem_cons, List.not_mem_nil, or_false] at hq
    rcases hq with rfl | rfl | rfl | rfl | rfl | rfl | rfl | rfl | rfl | rfl | rfl <;>
      exact le_refl _
  refine ⟨?_, ?_, by decide⟩
  · have hdec : envAllWhite.rawDecode [0] = some ⟨1, 1, 1, [255]⟩ := rfl
    have hconst : (testAngles.zip zerosC5).foldl skewStep (0, 0) = (0, 0) :=
      foldl_skewStep_const _ _ (by rw [hzip]; exact hall)
    have hbody : skewTryBody envAllWhite [0] = some 0 := by
      unfold skewTryBody
      rw [hdec, Option.some_bind, skewFoldAux_eq, hvarL]
      simp only [Option.map_some', Option.some_bind]
      rw [hconst]
    unfold estimateSkewAngle
    rw [hbody]
    rfl
  · unfold claimedSkewAngle angleVariances
    rw [hvarL, Option.some_bind, hzip]
    have hp : (fun (p : Int × Rat) => decide (∀ q ∈ pairsC5, q.2 ≤ p.2))
        ((((-5 : Int), (0 : Rat)) : Int × Rat)) = true := by
      show decide (∀ q ∈ pairsC5, q.2 ≤ ((((-5 : Int), (0 : Rat)) : Int × Rat)).2)
        = true
      exact decide_eq_true hall
    have hfind : List.find? (fun (p : Int × Rat) => decide (∀ q ∈ pairsC5, q.2 ≤ p.2))
        ((((-5 : Int), (0 : Rat)) : Int × Rat) :: pairsC5.tail)
        = some (((-5 : Int), (0 : Rat))) :=
      List.find?_cons_of_pos _ hp
    have hexp : List.find? (fun (p : Int × Rat) => decide (∀ q ∈ pairsC5, q.2 ≤ p.2))
        pairsC5
        = List.find? (fun (p : Int × Rat) => decide (∀ q ∈ pairsC5, q.2 ≤ p.2))
          ((((-5 : Int), (0 : Rat)) : Int × Rat) :: pairsC5.tail) := rfl
    rw [hexp, hfind]
    rfl

/-- C5 amended: estimateSkewAngle returns 0 on any decode/rotation failure;
when all candidates score, it returns the first-seen candidate of maximal
variance in ascending angle order provided the maximal variance is positive,
and falls back to the initializer angle 0 when every candidate's variance is
zero (so the -5-first tie rule of the claim does not apply there). -/
theorem estimateSkewAngle_amended (env : Env) (buf : ImgBuffer) :
    ((env.rawDecode buf = none ∨ angleVariances env buf = none) →
      estimateSkewAngle env buf = 0) ∧
    (∀ d vs, env.rawDecode buf = some d → angleVariances env buf = some vs →
      (((∀ v ∈ vs, v = 0) → estimateSkewAngle env buf = 0) ∧
       ((∃ v ∈ vs, 0 < v) →
         ∃ l1 p l2, testAngles.zip vs = l1 ++ p :: l2 ∧
           estimateSkewAngle env buf = p.1 ∧ 0 < p.2 ∧
           (∀ q ∈ l1, q.2 < p.2) ∧ (∀ q ∈ l2, q.2 ≤ p.2)))) := by
  constructor
  · intro hfail
    unfold estimateSkewAngle skewTryBody
    rcases hfail with hdec | hvar
    · rw [hdec, Option.none_bind]
      rfl
    · unfold angleVariances at hvar
      cases hdec : env.rawDecode buf with
      | none =>
        rw [Option.none_bind]
        rfl
      | some d =>
        rw [Option.some_bind, skewFoldAux_eq, hvar, Option.map_none',
          Option.none_bind]
        rfl
  · intro d vs hdec hvar
    unfold angleVariances at hvar
    have hbody : estimateSkewAngle env buf
        = ((testAngles.zip vs).foldl skewStep (0, 0)).1 := by
      unfold estimateSkewAngle skewTryBody
      rw [hdec, Option.some_bind, skewFoldAux_eq, hvar, Option.map_some',
        Option.some_bind]
      rfl
    constructor
    · intro hzero
      have hconst : (testAngles.zip vs).foldl skewStep (0, 0) = (0, 0) :=
        foldl_skewStep_const _ _
          (fun p hp => le_of_eq (hzero p.2 (List.of_mem_zip hp).2))
      rw [hbody, hconst]
    · rintro ⟨v, hv, hvpos⟩
      have hlen : vs.length = testAngles.length :=
        varListOf_length env buf testAngles vs hvar
      obtain ⟨i, hi, hvi⟩ := List.mem_iff_getElem.mp hv
      have hzlen : i < (testAngles.zip vs).length := by
        rw [List.length_zip]
        omega
      have hia : i < testAngles.length := by omega
      have hmemz : (testAngles[i], vs[i]) ∈ testAngles.zip vs := by
        have hg := @List.getElem_zip Int Rat testAngles vs i hzlen
        rw [← hg]
        exact List.getElem_mem hzlen
      have hex : ∃ p ∈ testAngles.zip vs, ((0, 0) : Int × Rat).2 < p.2 := by
        refine ⟨(testAngles[i], vs[i]), hmemz, ?_⟩
        show (0 : Rat) < vs[i]
        rw [hvi]
        exact hvpos
      obtain ⟨l1, r, l2, heq, hfold, hlt, hl1, hl2⟩ :=
        foldl_skewStep_firstmax (testAngles.zip vs) (0, 0) hex
      exact ⟨l1, r, l2, heq, by rw [hbody, hfold], hlt, hl1, hl2⟩

/-! ### PreprocessPipeline (preprocessImageForOCR, lines 573-666, with
applyDeskew lines 408-421)

The ten-stage try-block; on any exception, attempts below 2 first retry the
minimal grayscale+normalize+sharpen chain, and the final return falls back
to a bare grayscale re-encode, which is outside every try-block. -/

/-- `applyDilation` as the source exposes it: raw-decode, run the pixel
loop, re-encode. -/
def applyDilationM (env : Env) (buf : ImgBuffer) (k : Nat) : Option ImgBuffer :=
  (env.rawDecode buf).bind (fun img => env.encodeRaw (applyDilationImg img k))

/-- `applyErosion`, codec-level. -/
def applyErosionM (env : Env) (buf : ImgBuffer) (k : Nat) : Option ImgBuffer :=
  (env.rawDecode buf).bind (fun img => env.encodeRaw (applyErosionImg img k))

/-- `applyMorphologicalClosing`: dilation then erosion. -/
def applyMorphologicalClosing (env : Env) (buf : ImgBuffer) (k : Nat) :
    Option ImgBuffer :=
  (applyDilationM env buf k).bind (fun d => applyErosionM env d k)

/-- `applyMorphologicalOpening`: erosion then dilation. -/
def applyMorphologicalOpening (env : Env) (buf : ImgBuffer) (k : Nat) :
    Option ImgBuffer :=
  (applyErosionM env buf k).bind (fun e => applyDilationM env e k)

/-- `applyAdaptiveThreshold`, codec-level. -/
def applyAdaptiveThresholdM (env : Env) (buf : ImgBuffer) (blockSize : Nat)
    (C : Rat) : Option ImgBuffer :=
  (env.rawDecode buf).bind (fun img =>
    env.encodeRaw (applyAdaptiveThresholdImg img blockSize C))

/-- `applyDeskew`: estimate the angle (itself never throwing), skip the
rotation when `Math.abs(skewAngle) < 0.5`, else rotate on white. -/
def applyDeskew (env : Env) (buf : ImgBuffer) : Option ImgBuffer :=
  if |((estimateSkewAngle env buf : Int) : Rat)| < 1 / 2 then some buf
  else env.rotate (estimateSkewAngle env buf) buf

/-- `metadata.width || 800` and `metadata.height || 600`: both `undefined`
and 0 are falsy in JavaScript. -/
def orFalsy (v : Option Nat) (d : Nat) : Nat :=
  match v with
  | some w => if w = 0 then d else w
  | none => d

/-- `Math.round` (round half towards positive infinity). -/
def jsRound (q : Rat) : Int :=
  Int.floor (q + 1 / 2)

/-- The ten-stage try-block of preprocessImageForOCR. Stage parameters
follow `attempt === 1` checks: contrast 1.3/1.5, threshold 21,8 / 31,12,
closing kernel 3/5, opening kernel 2/3. -/
def preprocessMain (env : Env) (buf : ImgBuffer) (attempt : Nat) :
    Option ImgBuffer := do
  let md ← env.metadata buf
  let b1 ← env.grayscale buf
  let b2 ← env.normalize b1
  let b3 ← env.linear (if attempt = 1 then 13 / 10 else 3 / 2) (-20) b2
  let b4 ← env.median 3 b3
  let b5 ← env.sharpen (some (3 / 2)) b4
  let b6 ← (if orFalsy md.width 800 < 1000 ∨ orFalsy md.height 600 < 1000 then
      env.resize
        (jsRound ((orFalsy md.width 800 : Rat) *
          max (max (1000 / (orFalsy md.width 800 : Rat))
            (1000 / (orFalsy md.height 600 : Rat))) (3 / 2))).toNat
        (jsRound ((orFalsy md.height 600 : Rat) *
          max (max (1000 / (orFalsy md.width 800 : Rat))
            (1000 / (orFalsy md.height 600 : Rat))) (3 / 2))).toNat
        b5
    else some b5)
  let b7 ← applyDeskew env b6
  let b8 ← applyAdaptiveThresholdM env b7 (if attempt = 1 then 21 else 31)
    (if attempt = 1 then 8 else 12)
  let b9 ← applyMorphologicalClosing env b8 (if attempt = 1 then 3 else 5)
  applyMorphologicalOpening env b9 (if attempt = 1 then 2 else 3)

/-- The first fallback tier:
`sharp(imageBuffer).grayscale().normalize().sharpen().png().toBuffer()`. -/
def simplifiedPreprocess (env : Env) (buf : ImgBuffer) : Option ImgBuffer :=
  (env.grayscale buf).bind (fun g =>
    (env.normalize g).bind (fun n => env.sharpen none n))

/-- `preprocessImageForOCR`: the try-block; on exception, attempts below 2
try the simplified chain first; the last resort is the bare grayscale
re-encode, whose own failure is uncaught (the promise rejects to the
caller, modelled as `none`). -/
def preprocessImageForOCR (env : Env) (buf : ImgBuffer) (attempt : Nat) :
    Option ImgBuffer :=
  match preprocessMain env buf attempt with
  | some b => some b
  | none =>
    if attempt < 2 then
      match simplifiedPreprocess env buf with
      | some b => some b
      | none => env.grayscale buf
    else env.grayscale buf

theorem preprocessImageForOCR_of_main_some (env : Env) (buf : ImgBuffer)
    (attempt : Nat) (b : ImgBuffer) (h : preprocessMain env buf attempt = some b) :
    preprocessImageForOCR env buf attempt = some b := by
  unfold preprocessImageForOCR
  rw [h]

theorem preprocessImageForOCR_of_main_none_lt (env : Env) (buf : ImgBuffer)
    (attempt : Nat) (h : preprocessMain env buf attempt = none)
    (ha : attempt < 2) :
    preprocessImageForOCR env buf attempt
      = match simplifiedPreprocess env buf with
        | some b => some b
        | none => env.grayscale buf := by
  unfold preprocessImageForOCR
  rw [h, if_pos ha]

theorem preprocessImageForOCR_of_main_none_ge (env : Env) (buf : ImgBuffer)
    (attempt : Nat) (h : preprocessMain env buf attempt = none)
    (ha : ¬ attempt < 2) :
    preprocessImageForOCR env buf attempt = env.grayscale buf := by
  unfold preprocessImageForOCR
  rw [h, if_neg ha]

/-- C1 counterexample: a buffer the codec cannot process at all (every
codec call throws, as `sharp` does on undecodable bytes) makes
preprocessImageForOCR itself reject: the final grayscale fallback is
outside any try/catch, so the pipeline does not always return a buffer. -/
theorem preprocessImageForOCR_counterexample :
    preprocessImageForOCR envAllWhite [0] 1 = none := rfl

/-- C1 amended: any exception in the ten-stage try-block triggers the
fallback; for attempt < 2 first the minimal grayscale+normalize+sharpen
chain and then grayscale-only, for attempt >= 2 directly grayscale-only
(the minimal tier is skipped); the function returns a buffer whenever the
grayscale-only call succeeds, but an exception in that last fallback
propagates to the caller. -/
theorem preprocessImageForOCR_amended (env : Env) (buf : ImgBuffer)
    (attempt : Nat) :
    (∀ b, preprocessMain env buf attempt = some b →
      preprocessImageForOCR env buf attempt = some b) ∧
    (preprocessMain env buf attempt = none → attempt < 2 →
      (∀ s, simplifiedPreprocess env buf = some s →
        preprocessImageForOCR env buf attempt = some s) ∧
      (simplifiedPreprocess env buf = none →
        preprocessImageForOCR env buf attempt = env.grayscale buf)) ∧
    (preprocessMain env buf attempt = none → ¬ attempt < 2 →
      preprocessImageForOCR env buf attempt = env.grayscale buf) ∧
    (preprocessImageForOCR env buf attempt = none →
      env.grayscale buf = none) := by
  refine ⟨?_, ?_, ?_, ?_⟩
  · intro b hb
    exact preprocessImageForOCR_of_main_some env buf attempt b hb
  · intro hm ha
    constructor
    · intro s hs
      rw [preprocessImageForOCR_of_main_none_lt env buf attempt hm ha, hs]
    · intro hs
      rw [preprocessImageForOCR_of_main_none_lt env buf attempt hm ha, hs]
  · intro hm ha
    exact preprocessImageForOCR_of_main_none_ge env buf attempt hm ha
  · intro hres
    cases hm : preprocessMain env buf attempt with
    | some b =>
      rw [preprocessImageForOCR_of_main_some env buf attempt b hm] at hres
      exact Option.noConfusion hres
    | none =>
      by_cases ha : attempt < 2
      · rw [preprocessImageForOCR_of_main_none_lt env buf attempt hm ha] at hres
        cases hs : simplifiedPreprocess env buf with
        | some s =>
          rw [hs] at hres
          exact Option.noConfusion hres
        | none =>
          rw [hs] at hres
          exact hres
      · rw [preprocessImageForOCR_of_main_none_ge env buf attempt hm ha] at hres
        exact hres

/-! ### TextCorrector (correctArabicOCRText, lines 668-733) -/

/-- System prompt of the correction call. -/
def correctSystemPrompt : String :=
  "أنت مصحح لغوي متخصص في تصحيح النصوص العربية المستخرجة من OCR. أخرج النص المصحح فقط."

/-- User prompt of the correction call, the template applied to the raw
text. -/
def correctionPrompt (rawText : String) : String :=
  "أنت نظام متخصص في تصحيح النص العربي المستخرج من OCR.\n\nالنص قد يحتوي على:\n- أحرف مكسورة أو تالفة (مثل ��)\n- أخطاء إملائية\n- مسافات غير صحيحة\n- كلمات متصلة أو منفصلة بشكل خاطئ\n- خلط بين أحرف عربية متشابهة (ي/ى، ه/ة، ب/ت/ث، ل/لا)\n\nمهمتك:\n1. تصحيح الأخطاء الإملائية والحروف فقط\n2. إعادة كتابة النص بعربية فصحى واضحة وصحيحة\n3. لا تغير المعنى الأصلي\n4. لا تضف معلومات جديدة\n5. حافظ على البنية والقصد الأصلي\n6. أزل الرموز غير القابلة للقراءة أو استبدلها حسب السياق\n\nأخرج النص المصحح فقط بدون أي شرح أو تعليق.\n\nالنص الخام من OCR:\n" ++ rawText

/-- `correctArabicOCRText`: no-op without a key or on text of length < 5
(`!rawText || rawText.length < 5`: the empty string already has length 0);
otherwise one completion call at maxTokens 2048, temperature 0.1, whose
trimmed content is returned, the original text standing in for a thrown
error, a null content, or a content that trims to empty. -/
def correctArabicOCRText (env : Env) (rawText : String) : String :=
  if !env.apiKey then rawText
  else if rawText.length < 5 then rawText
  else
    match env.complete correctSystemPrompt (correctionPrompt rawText) 2048 (1 / 10) with
    | none => rawText
    | some none => rawText
    | some (some content) =>
      if trimStr content = "" then rawText else trimStr content

/-- Environment for the C8 counterexample: the collaborator answers with
surrounding whitespace. -/
def envTrimCollab : Env :=
  ⟨true, fun _ => none, fun _ => none, fun _ => none, fun _ _ _ => none,
   fun _ _ => none, fun _ _ => none, fun _ _ _ => none,
   fun _ _ => none, fun _ => none, fun _ => none,
   fun _ => [], fun _ => none, fun _ _ _ _ => some (some " ok "), fun _ => none⟩

/-- C8 counterexample: with an available collaborator returning " ok " on
the 5-character input "hello", the function returns the trimmed "ok", not
the collaborator's output " ok ". -/
theorem correctArabicOCRText_counterexample :
    correctArabicOCRText envTrimCollab "hello" = "ok"
      ∧ envTrimCollab.complete correctSystemPrompt (correctionPrompt "hello")
          2048 (1 / 10) = some (some " ok ")
      ∧ (" ok " : String) ≠ "ok" := by
  refine ⟨by decide, rfl, by decide⟩

/-- C8 amended: the corrector returns the input unchanged when the
collaborator is unavailable or the input length is < 5; otherwise it
returns the collaborator's output trimmed of surrounding whitespace,
falling back to the original input when the collaborator throws, returns
null, or returns output that trims to empty — in particular a throwing
collaborator yields the unmodified input and no exception. -/
theorem correctArabicOCRText_amended (env : Env) (s : String) :
    (env.apiKey = false → correctArabicOCRText env s = s) ∧
    (s.length < 5 → correctArabicOCRText env s = s) ∧
    (env.apiKey = true → ¬ s.length < 5 →
      ((env.complete correctSystemPrompt (correctionPrompt s) 2048 (1 / 10) = none →
        correctArabicOCRText env s = s) ∧
       (env.complete correctSystemPrompt (correctionPrompt s) 2048 (1 / 10) = some none →
        correctArabicOCRText env s = s) ∧
       (∀ c, env.complete correctSystemPrompt (correctionPrompt s) 2048 (1 / 10)
          = some (some c) → trimStr c = "" → correctArabicOCRText env s = s) ∧
       (∀ c, env.complete correctSystemPrompt (correctionPrompt s) 2048 (1 / 10)
          = some (some c) → trimStr c ≠ "" →
          correctArabicOCRText env s = trimStr c))) := by
  refine ⟨?_, ?_, ?_⟩
  · intro hkey
    unfold correctArabicOCRText
    rw [hkey]
    rfl
  · intro hlen
    unfold correctArabicOCRText
    cases hkey : env.apiKey with
    | false => rfl
    | true =>
      show (if s.length < 5 then s else _) = s
      rw [if_pos hlen]
  · intro hkey hlen
    have hbase : correctArabicOCRText env s
        = match env.complete correctSystemPrompt (correctionPrompt s) 2048 (1 / 10) with
          | none => s
          | some none => s
          | some (some content) =>
            if trimStr content = "" then s else trimStr content := by
      unfold correctArabicOCRText
      rw [hkey]
      show (if s.length < 5 then s else _) = _
      rw [if_neg hlen]
    refine ⟨?_, ?_, ?_, ?_⟩
    · intro hc
      rw [hbase, hc]
    · intro hc
      rw [hbase, hc]
    · intro c hc htrim
      rw [hbase, hc]
      show (if trimStr c = "" then s else trimStr c) = s
      rw [if_pos htrim]
    · intro c hc htrim
      rw [hbase, hc]
      show (if trimStr c = "" then s else trimStr c) = trimStr c
      rw [if_neg htrim]

/-! ### RecognitionAdapter (extractTextFromImageWithOCR, lines 735-795)

The function is instrumented with the list of attempt numbers at which it
invokes preprocessImageForOCR, so the retry discipline is part of the
returned value. The whole body sits in one try/catch whose catch returns
the extraction-failed sentinel, so the model is total. -/

/-- The prefix glued onto the corrected text. -/
def ocrHeaderPrefix : String :=
  "[نص مستخرج من الصورة باستخدام OCR المحسّن]:\n"

/-- Sentinel for a legible-text-free image after both attempts. -/
def noReadableTextSentinel : String :=
  "[صورة - لم يتم العثور على نص قابل للقراءة في الصورة]"

/-- Sentinel the catch-block returns for any thrown error. -/
def extractionFailedSentinel : String :=
  "[صورة - فشل في استخراج النص من الصورة]"

/-- `extractTextFromImageWithOCR`, returning the text and the list of
preprocessing attempts invoked. `!rawText || rawText.length < 3` is the
trimmed length being below 3. -/
def extractTextFromImageWithOCR (env : Env) (base64Data : String) :
    String × List Nat :=
  match preprocessImageForOCR env (env.fromBase64 base64Data) 1 with
  | none => (extractionFailedSentinel, [1])
  | some p1 =>
    match env.tesseract p1 with
    | none => (extractionFailedSentinel, [1])
    | some t1 =>
      if (trimStr t1).length < 3 then
        match preprocessImageForOCR env (env.fromBase64 base64Data) 2 with
        | none => (extractionFailedSentinel, [1, 2])
        | some p2 =>
          match env.tesseract p2 with
          | none => (extractionFailedSentinel, [1, 2])
          | some t2 =>
            if (trimStr t2).length < 3 then (noReadableTextSentinel, [1, 2])
            else (ocrHeaderPrefix ++ correctArabicOCRText env (trimStr t2), [1, 2])
      else (ocrHeaderPrefix ++ correctArabicOCRText env (trimStr t1), [1])

/-- Environment for the C4 counterexample: the ten-stage block fails (no
metadata), the simplified tier yields a two-byte buffer on attempt 1 and
the grayscale-only tier a one-byte buffer on attempt 2; recognition reads
"" off the first and the non-empty "hi" off the second. -/
def envRetryShort : Env :=
  ⟨false, fun _ => none, fun b => some (1 :: b), fun b => some b,
   fun _ _ _ => none, fun _ _ => none, fun _ b => some (2 :: b),
   fun _ _ _ => none, fun _ _ => none, fun _ => none, fun _ => none,
   fun _ => [], fun b => if b.length = 2 then some "" else some "hi",
   fun _ _ _ _ => none, fun _ => none⟩

/-- C4 counterexample: attempt 1 reads empty text and attempt 2 the
non-empty "hi"; because "hi" is still shorter than 3 characters the
function returns the no-readable-text sentinel, not the attempt-2 text the
claim promises for any non-empty attempt-2 result. -/
theorem extractText_counterexample :
    extractTextFromImageWithOCR envRetryShort "" = (noReadableTextSentinel, [1, 2])
      ∧ envRetryShort.tesseract [1] = some "hi"
      ∧ ("hi" : String) ≠ ""
      ∧ noReadableTextSentinel ≠ "hi" := by
  refine ⟨by decide, rfl, by decide, by decide⟩

/-- C4 amended: when the attempt-1 text trims below 3 characters,
preprocessing runs exactly twice (attempts 1 then 2); the attempt-2 text is
accepted only when its trimmed length reaches 3, and is then returned
passed through the Arabic corrector and prefixed with the extraction
header; an attempt-2 text still below 3 characters (even non-empty) yields
the no-readable-text sentinel. All failure paths return sentinel strings:
the function never throws. -/
theorem extractText_amended (env : Env) (s : String)
    (p1 : ImgBuffer) (t1 : String) (p2 : ImgBuffer) (t2 : String)
    (hp1 : preprocessImageForOCR env (env.fromBase64 s) 1 = some p1)
    (ht1 : env.tesseract p1 = some t1)
    (h3 : (trimStr t1).length < 3)
    (hp2 : preprocessImageForOCR env (env.fromBase64 s) 2 = some p2)
    (ht2 : env.tesseract p2 = some t2) :
    (3 ≤ (trimStr t2).length →
      extractTextFromImageWithOCR env s
        = (ocrHeaderPrefix ++ correctArabicOCRText env (trimStr t2), [1, 2])) ∧
    ((trimStr t2).length < 3 →
      extractTextFromImageWithOCR env s = (noReadableTextSentinel, [1, 2])) := by
  constructor
  · intro h2
    unfold extractTextFromImageWithOCR
    simp only [hp1, ht1, hp2, ht2]
    rw [if_pos h3, if_neg (by omega : ¬ (trimStr t2).length < 3)]
  · intro h2
    unfold extractTextFromImageWithOCR
    simp only [hp1, ht1, hp2, ht2]
    rw [if_pos h3, if_pos h2]

/-- Environment for the C4 witness: like the counterexample's but attempt 2
reads the 5-character "hello". -/
def envRetryOk : Env :=
  ⟨false, fun _ => none, fun b => some (1 :: b), fun b => some b,
   fun _ _ _ => none, fun _ _ => none, fun _ b => some (2 :: b),
   fun _ _ _ => none, fun _ _ => none, fun _ => none, fun _ => none,
   fun _ => [], fun b => if b.length = 2 then some "" else some "hello",
   fun _ _ _ _ => none, fun _ => none⟩

/-- Witness for C4's amended theorem at a concrete environment. -/
theorem extractText_amended_witness :
    (3 ≤ (trimStr "hello").length →
      extractTextFromImageWithOCR envRetryOk ""
        = (ocrHeaderPrefix ++ correctArabicOCRText envRetryOk (trimStr "hello"),
           [1, 2])) ∧
    ((trimStr "hello").length < 3 →
      extractTextFromImageWithOCR envRetryOk "" = (noReadableTextSentinel, [1, 2])) :=
  extractText_amended envRetryOk "" [2, 1] "" [1] "hello"
    (by decide) rfl (by decide) (by decide) rfl

/-! ### StructureDetector (detectHeadingsFromText, lines 238-338)

The detector delegates to the completion collaborator and reads a JSON
array of sections out of the response with the regex
`/\[[\s\S]*\]/` — the substring from the first '[' to the last ']' —
before `JSON.parse`. Everything else falls back to one "main" section
wrapping the raw text. -/

/-- System prompt of the heading-detection call. -/
def headingSystemPrompt : String :=
  "أنت محرر نصوص محترف. أخرج JSON فقط بدون أي نص إضافي. المصفوفة يجب أن تحتوي على كائنات بالحقول: type, title, content"

/-- User prompt of the heading-detection call applied to the (possibly
truncated) text. -/
def headingDetectionPrompt (textToProcess : String) : String :=
  "أنت نظام ذكي متخصص في تحليل النصوص العربية المستخرجة من مستندات PDF واكتشاف هيكل المستند تلقائياً.\n\nالمهمة:\nتحليل النص العربي التالي (المستخرج من PDF) واكتشاف:\n- العناوين الرئيسية\n- العناوين الفرعية\n- إعادة بناء الهيكل المنطقي للمستند\n\nملاحظات مهمة:\n- النص قد يحتوي على أخطاء OCR\n- قد تكون المسافات غير متسقة\n- لا توجد معلومات تنسيق\n- يجب استنتاج الهيكل من المحتوى وليس التنسيق\n\nقواعد اكتشاف العناوين:\nحدد العناوين باستخدام الأدلة الدلالية مثل:\n1. جمل التعريف: \"تعريف...\"، \"مفهوم...\"، \"ما هو...\"\n2. التعدادات: \"أولاً\"، \"ثانياً\"، \"أنواع\"، \"مراحل\"، \"خصائص\"، \"استخدامات\"\n3. انتقالات الموضوع: \"في هذا الفصل\"، \"ننتقل إلى\"، \"سنتناول\"، \"يهدف هذا القسم\"\n\nصيغة الإخراج (JSON فقط):\nأرجع مصفوفة JSON بالشكل التالي:\n[\n  \x7b\"type\": \"main\", \"title\": \"العنوان الرئيسي\", \"content\": \"محتوى القسم...\"\x7d,\n  \x7b\"type\": \"sub\", \"title\": \"العنوان الفرعي\", \"content\": \"محتوى القسم الفرعي...\"\x7d\n]\n\nالنص المطلوب تحليله:\n" ++ textToProcess

/-- The fallback: a single "main" section titled "المحتوى" wrapping the
whole text. -/
def defaultStructured (rawText : String) : StructuredDocument :=
  ⟨[⟨"main", "المحتوى", rawText⟩], rawText⟩

/-- Index of the first occurrence of `c`. -/
def firstIdxOf (l : List Char) (c : Char) : Option Nat :=
  l.findIdx? (fun d => d == c)

/-- Index of the last occurrence of `c`. -/
def lastIdxOf (l : List Char) (c : Char) : Option Nat :=
  match l.reverse.findIdx? (fun d => d == c) with
  | some k => some (l.length - 1 - k)
  | none => none

/-- `responseText.match(/\[[\s\S]*\]/)`: the leftmost match starts at the
first '[', and the greedy star stretches to the last ']' of the whole
response; no match when that span does not exist. -/
def bracketSpan (s : String) : Option String :=
  match firstIdxOf s.data '[', lastIdxOf s.data ']' with
  | some i, some j =>
    if i < j then some (String.mk ((s.data.drop i).take (j + 1 - i))) else none
  | some _, none => none
  | none, _ => none

/-- `sections.map(s => title\n\ncontent).join("\n\n")`. -/
def buildPlainText (sections : List DocumentSection) : String :=
  String.intercalate "\n\n"
    (sections.map (fun sec => sec.title ++ "\n\n" ++ sec.content))

/-- `detectHeadingsFromText`. -/
def detectHeadingsFromText (env : Env) (rawText : String) : StructuredDocument :=
  if !env.apiKey then defaultStructured rawText
  else if rawText.length < 100 then defaultStructured rawText
  else
    match env.complete headingSystemPrompt
        (headingDetectionPrompt (if rawText.length > 8000 then
          String.mk (rawText.data.take 8000) else rawText)) 8192 (1 / 5) with
    | none => defaultStructured rawText
    | some none => defaultStructured rawText
    | some (some content) =>
      if trimStr content = "" then defaultStructured rawText
      else
        match bracketSpan (trimStr content) with
        | none => defaultStructured rawText
        | some jsonStr =>
          match env.parseJsonArray jsonStr with
          | none => defaultStructured rawText
          | some sections => ⟨sections, buildPlainText sections⟩

/-- `structurePDFText`, the exported wrapper. -/
def structurePDFText (env : Env) (text : String) : StructuredDocument :=
  detectHeadingsFromText env text

/-- Left brace, kept out of character literals. -/
def lbraceChar : Char := Char.ofNat 123

/-- Right brace. -/
def rbraceChar : Char := Char.ofNat 125

/-- JSON whitespace skipping. -/
def skipWsJ (l : List Char) : List Char :=
  l.dropWhile (fun c => c == ' ' || c == '\n' || c == '\t' || c == '\r')

/-- A JSON string literal without escape sequences. -/
def parseStrLit : List Char → Option (String × List Char)
  | c :: rest =>
    if c == '"' then
      match rest.drop (rest.takeWhile (fun d => d != '"')).length with
      | d :: r =>
        if d == '"' then some (String.mk (rest.takeWhile (fun d => d != '"')), r)
        else none
      | [] => none
    else none
  | [] => none

/-- Skip whitespace, then demand the character `c`. -/
def expectChar (c : Char) (l : List Char) : Option (List Char) :=
  match skipWsJ l with
  | d :: r => if d == c then some r else none
  | [] => none

/-- One `"name": "value"` field. -/
def parseField (name : String) (l : List Char) : Option (String × List Char) := do
  let (key, r1) ← parseStrLit (skipWsJ l)
  if key = name then do
    let r2 ← expectChar ':' r1
    let (v, r3) ← parseStrLit (skipWsJ r2)
    some (v, r3)
  else none

/-- One section object with the fields type, title, content in order. -/
def parseSectionObj (l : List Char) : Option (DocumentSection × List Char) := do
  let r0 ← expectChar lbraceChar l
  let (ty, r1) ← parseField "type" r0
  let r2 ← expectChar ',' r1
  let (ti, r3) ← parseField "title" r2
  let r4 ← expectChar ',' r3
  let (co, r5) ← parseField "content" r4
  let r6 ← expectChar rbraceChar r5
  some (⟨ty, ti, co⟩, r6)

/-- Comma-separated section objects up to the closing ']'. -/
def parseSectionsAux : Nat → List Char → Option (List DocumentSection × List Char)
  | 0, _ => none
  | fuel + 1, l => do
    let (sec, r1) ← parseSectionObj l
    match skipWsJ r1 with
    | c :: r2 =>
      if c == ',' then do
        let (secs, r3) ← parseSectionsAux fuel r2
        some (sec :: secs, r3)
      else if c == ']' then some ([sec], r2)
      else none
    | [] => none

/-- Modelled from the spec: `JSON.parse` exactly as the detector consumes
it — the string must be one well-formed JSON array of section objects
(string fields type/title/content in that order, no escape sequences) with
nothing but whitespace after it, since JSON.parse rejects trailing text. -/
def parseJsonSections (s : String) : Option (List DocumentSection) := do
  let r0 ← expectChar '[' s.data
  match skipWsJ r0 with
  | c :: r1 =>
    if c == ']' then (if skipWsJ r1 = [] then some [] else none)
    else do
      let (secs, r) ← parseSectionsAux (s.data.length + 1) r0
      if skipWsJ r = [] then some secs else none
  | [] => none

/-- Modelled from the spec: "extracting the first well-formed JSON array
substring" — the leftmost starting position, and from it the shortest
substring, that the parser accepts. -/
def firstWellFormedArray (parse : String → Option (List DocumentSection))
    (s : String) : Option (List DocumentSection) :=
  (List.range (s.data.length + 1)).findSome? (fun i =>
    (List.range (s.data.length + 1)).findSome? (fun j =>
      if i < j then parse (String.mk ((s.data.drop i).take (j - i))) else none))

/-- The collaborator response of the C9 counterexample: it contains the
well-formed section array, but stray text and a later bracket pair make
the first-'['-to-last-']' span unparseable. -/
def respC9 : String :=
  "ok [\x7b\"type\":\"main\",\"title\":\"t\",\"content\":\"c\"\x7d] x []"

/-- Environment for the C9 counterexample. -/
def envGreedyJson : Env :=
  ⟨true, fun _ => none, fun _ => none, fun _ => none, fun _ _ _ => none,
   fun _ _ => none, fun _ _ => none, fun _ _ _ => none,
   fun _ _ => none, fun _ => none, fun _ => none,
   fun _ => [], fun _ => none, fun _ _ _ _ => some (some respC9),
   parseJsonSections⟩

/-- The 100-character input of the C9 counterexample. -/
def rawC9 : String := String.mk (List.replicate 100 'a')

/-- C9 counterexample: the response holds a well-formed JSON array (the
first one parses to one section), yet the detector returns the
single-section fallback, because the greedy first-'['-to-last-']' span is
not valid JSON. -/
theorem detectHeadings_counterexample :
    detectHeadingsFromText envGreedyJson rawC9 = defaultStructured rawC9
      ∧ firstWellFormedArray parseJsonSections respC9
          = some [⟨"main", "t", "c"⟩]
      ∧ (defaultStructured rawC9).sections ≠ [⟨"main", "t", "c"⟩] := by
  refine ⟨by decide, by decide, by decide⟩

/-- C9 amended: the detector extracts the substring from the first '[' to
the last ']' of the trimmed response and JSON-parses that; when no such
span exists or it fails to parse — even though a well-formed JSON array
occurs elsewhere in the response — the single-section fallback is
returned, and a parsed section list is returned with its rebuilt
plainText. -/
theorem detectHeadings_amended (env : Env) (rawText resp : String)
    (hkey : env.apiKey = true) (hlen : ¬ rawText.length < 100)
    (hcomp : env.complete headingSystemPrompt
      (headingDetectionPrompt (if rawText.length > 8000 then
        String.mk (rawText.data.take 8000) else rawText)) 8192 (1 / 5)
      = some (some resp))
    (htrim : ¬ trimStr resp = "") :
    detectHeadingsFromText env rawText
      = match bracketSpan (trimStr resp) with
        | none => defaultStructured rawText
        | some jsonStr =>
          match env.parseJsonArray jsonStr with
          | none => defaultStructured rawText
          | some sections => ⟨sections, buildPlainText sections⟩ := by
  unfold detectHeadingsFromText
  rw [hkey]
  show (if rawText.length < 100 then defaultStructured rawText else _) = _
  rw [if_neg hlen, hcomp]
  show (if trimStr resp = "" then defaultStructured rawText else _) = _
  rw [if_neg htrim]

/-- Witness for C9's amended theorem at the counterexample environment. -/
theorem detectHeadings_amended_witness :
    detectHeadingsFromText envGreedyJson rawC9
      = match bracketSpan (trimStr respC9) with
        | none => defaultStructured rawC9
        | some jsonStr =>
          match envGreedyJson.parseJsonArray jsonStr with
          | none => defaultStructured rawC9
          | some sections => ⟨sections, buildPlainText sections⟩ :=
  detectHeadings_amended envGreedyJson rawC9 respC9 rfl (by decide) rfl
    (by decide)
